import Mathlib

/-!
# hidkeys: a USB HID keyboard firmware core (`main.c`)

Shallow embedding of `main.c`.  `uchar` values are natural numbers; where the C
code converts back to eight bits the reduction `% 256` is written out.  The
globals of `main.c` (`reportBuffer`, `idleRate`, the driver's `usbMsgPtr`) and
the locals of `main` that live across iterations (`lastKey`, `keyDidChange`,
`idleCounter`) are the fields of one `State`.

Hardware and driver inputs are explicit arguments: the value read from `PINB`,
the timer overflow flag, the answer of `usbInterruptIsReady()` and the setup
packet that `usbPoll()` hands to `usbFunctionSetup`.

The constants of `usbdrv.h` and `keyboard.h` are not part of `main.c`; they are
the fields of `Consts`, and every definition that uses one takes a `Consts`.
-/

namespace HidKeys

/-! ## Constants of the included headers -/

/-- Constants that `main.c` takes from `usbdrv.h` (`USBRQ_*`) and from
`keyboard.h` (`KEY_*`).  Their values are not fixed by `main.c`. -/
structure Consts where
  USBRQ_TYPE_MASK : Nat
  USBRQ_TYPE_CLASS : Nat
  USBRQ_HID_GET_REPORT : Nat
  USBRQ_HID_GET_IDLE : Nat
  USBRQ_HID_SET_IDLE : Nat
  KEY_A : Nat
  KEY_B : Nat
  KEY_C : Nat
  KEY_D : Nat
  KEY_E : Nat
  KEY_F : Nat
  KEY_G : Nat
  KEY_H : Nat

/-- Modelled from the spec: the values of the constants, which the missing
headers `usbdrv.h` and `keyboard.h` define.  The specification speaks of the
HID-class requests GET_REPORT, GET_IDLE and SET_IDLE and of key codes that are
valid HID usage IDs; these are the request type mask and the class and request
codes of the USB and HID specifications, and the HID usage IDs of the letters
a to h (all inside the usage range 0..101 that the report descriptor
declares).  Used to evaluate the definitions on examples. -/
def stdConsts : Consts where
  USBRQ_TYPE_MASK := 0x60
  USBRQ_TYPE_CLASS := 0x20
  USBRQ_HID_GET_REPORT := 0x01
  USBRQ_HID_GET_IDLE := 0x02
  USBRQ_HID_SET_IDLE := 0x0a
  KEY_A := 4
  KEY_B := 5
  KEY_C := 6
  KEY_D := 7
  KEY_E := 8
  KEY_F := 9
  KEY_G := 10
  KEY_H := 11

/-! ## Key sampler -/

/-- The `for` loop of `keyPressed` (lines 37-42), entered with the loop
variables `i` and `mask`.  `PINB` is the value the input register shows.  The
first argument bounds the number of loop tests; `none` means that the bound was
reached before the loop was left. -/
def keyPressedLoop (PINB : Nat) : Nat → Nat → Nat → Option Nat
  | 0, _, _ => none
  | fuel + 1, i, mask =>
    if i < 8 then
      if PINB &&& mask = 0 then
        some (i + 1)
      else
        keyPressedLoop PINB fuel (i + 1) ((mask <<< 1) % 256)
    else
      some 0

/-- Function `keyPressed` (lines 34-45): `i = 0, mask = 1`, then the loop.  Nine
loop tests are enough for every input (`keyPressed_total`). -/
def keyPressed (PINB : Nat) : Option Nat :=
  keyPressedLoop PINB 9 0 1

/-! ## Report encoder -/

/-- Table `keyReport[9][2]` (lines 70-80): one row `(modifier, keycode)` per
key index; the initialisers are stored as `uchar`. -/
def keyReport (c : Consts) : List (Nat × Nat) :=
  [ (0, 0),
    (0, c.KEY_A % 256),
    (0, c.KEY_B % 256),
    (0, c.KEY_C % 256),
    (0, c.KEY_D % 256),
    (0, c.KEY_E % 256),
    (0, c.KEY_F % 256),
    (0, c.KEY_G % 256),
    (0, c.KEY_H % 256) ]

/-- Address of the value `usbMsgPtr` points at: one of the two globals of
`main.c`, or some other address (its value before the first setup request). -/
inductive MsgPtr where
  | reportBuffer
  | idleRate
  | other (addr : Nat)
  deriving DecidableEq, Repr

/-- The globals of `main.c` and the locals of `main` that survive a loop
iteration. -/
structure State where
  /-- Bytes `reportBuffer[0]` and `reportBuffer[1]`. -/
  reportBuffer : Nat × Nat
  idleRate : Nat
  usbMsgPtr : MsgPtr
  lastKey : Nat
  keyDidChange : Nat
  idleCounter : Nat
  deriving DecidableEq, Repr

/-- Read of a 16-bit word from program memory at the address of a table row:
the AVR is little-endian, the byte at the lower address is the low byte. -/
def pgm_read_word (row : Nat × Nat) : Nat :=
  row.1 + 256 * row.2

/-- Conversion of the `uint16_t` that `pgm_read_word` returns to the 16-bit
two's complement `int` of the AVR: values from `0x8000` on become negative. -/
def toInt16 (w : Nat) : Int :=
  if w % 65536 < 32768 then ((w % 65536 : Nat) : Int) else ((w % 65536 : Nat) : Int) - 65536

/-- Store of an `int` through `(int *)reportBuffer`: the two bytes of its
16-bit two's complement representation, the low byte at the lower address. -/
def storeInt16 (v : Int) : Nat × Nat :=
  ((v % 256).toNat, (v / 256 % 256).toNat)

/-- Function `buildReport` (lines 89-92): the word read at `keyReport[key]` is
converted to `int` and stored through `(int *)reportBuffer`.  A `key` outside
the table has no row to read and gives `none`. -/
def buildReport (c : Consts) (key : Nat) (s : State) : Option State :=
  match (keyReport c)[key]? with
  | none => none
  | some row =>
    some { s with reportBuffer := storeInt16 (toInt16 (pgm_read_word row)) }

/-- The explicit two-byte copy that the specification asks for in place of the
word copy of `buildReport`: `reportBuffer[0] = keyReport[key][0]` and
`reportBuffer[1] = keyReport[key][1]`. -/
def buildReportBytes (c : Consts) (key : Nat) (s : State) : Option State :=
  match (keyReport c)[key]? with
  | none => none
  | some row => some { s with reportBuffer := (row.1, row.2) }

/-! ## Control-request handler -/

/-- Modelled from the spec: the type `usbRequest_t` of `usbdrv.h` (missing from
the sources), the layout of the eight bytes of a setup packet: request type
bits, request code, then the value, index and length fields, each a low byte
`bytes[0]` followed by a high byte `bytes[1]`. -/
structure usbRequest_t where
  bmRequestType : Nat
  bRequest : Nat
  wValue : Nat × Nat
  wIndex : Nat × Nat
  wLength : Nat × Nat

/-- The cast `usbRequest_t *rq = (void *)data` of line 95. -/
def castRequest (data : Fin 8 → Nat) : usbRequest_t where
  bmRequestType := data 0
  bRequest := data 1
  wValue := (data 2, data 3)
  wIndex := (data 4, data 5)
  wLength := (data 6, data 7)

/-- Function `usbFunctionSetup` (lines 94-118).  `PINB` is the value of the
input register at the time of the call; the result is the returned length and
the state after the call. -/
def usbFunctionSetup (c : Consts) (PINB : Nat) (data : Fin 8 → Nat) (s : State) :
    Option (Nat × State) :=
  let rq := castRequest data
  let s := { s with usbMsgPtr := MsgPtr.reportBuffer }
  if rq.bmRequestType &&& c.USBRQ_TYPE_MASK = c.USBRQ_TYPE_CLASS then
    if rq.bRequest = c.USBRQ_HID_GET_REPORT then
      match keyPressed PINB with
      | none => none
      | some key =>
        match buildReport c key s with
        | none => none
        | some s => some (2, s)
    else if rq.bRequest = c.USBRQ_HID_GET_IDLE then
      some (1, { s with usbMsgPtr := MsgPtr.idleRate })
    else if rq.bRequest = c.USBRQ_HID_SET_IDLE then
      some (0, { s with idleRate := rq.wValue.2 })
    else
      some (0, s)
  else
    some (0, s)

/-! ## Main loop -/

/-- What one iteration of the main loop reads from the driver and the
hardware. -/
structure Input where
  /-- Setup packet that `usbPoll()` passes to `usbFunctionSetup` in this
  iteration, if one arrived. -/
  setup : Option (Fin 8 → Nat)
  /-- Value of `PINB` while that setup packet is handled. -/
  pinbSetup : Nat
  /-- Value of `PINB` read by `keyPressed()` at line 133. -/
  PINB : Nat
  /-- Whether `TIFR & (1<<TOV0)` is non-zero at line 141. -/
  tov0 : Bool
  /-- Answer of `usbInterruptIsReady()` at line 154. -/
  ready : Bool

/-- State at the entry of the loop (lines 121-122; the statics are
zero-initialised).  The driver's `usbMsgPtr` is whatever `usbInit` left. -/
def boot (p : MsgPtr) : State where
  reportBuffer := (0, 0)
  idleRate := 0
  usbMsgPtr := p
  lastKey := 0
  keyDidChange := 0
  idleCounter := 0

/-- Modelled from the spec: the driver function `usbPoll()` called at line 131
(the driver is missing from the sources).  Servicing the transport "may
synchronously invoke" the control-request handler: the driver calls
`usbFunctionSetup` when a setup packet has arrived; the returned length goes
to the driver. -/
def pollStep (c : Consts) (inp : Input) (s : State) : Option State :=
  match inp.setup with
  | none => some s
  | some data =>
    match usbFunctionSetup c inp.pinbSetup data s with
    | none => none
    | some r => some r.2

/-- Lines 133-138: sample the key and latch a change. -/
def sampleStep (PINB : Nat) (s : State) : Option State :=
  match keyPressed PINB with
  | none => none
  | some key =>
    if s.lastKey ≠ key then
      some { s with lastKey := key, keyDidChange := 1 }
    else
      some s

/-- Lines 141-152: the idle timer, `tov0` telling whether the 22 ms timer has
overflowed.  (Clearing the flag in `TIFR` is an effect on the hardware.) -/
def idleStep (tov0 : Bool) (s : State) : State :=
  if tov0 then
    if s.idleRate ≠ 0 then
      if s.idleCounter > 4 then
        { s with idleCounter := (s.idleCounter + 256 - 5) % 256 }
      else
        { s with idleCounter := s.idleRate, keyDidChange := 1 }
    else
      s
  else
    s

/-- Lines 154-160: submit a report when one is due and the interrupt slot is
free.  The second component is the pair of bytes handed to `usbSetInterrupt`,
`none` when it is not called. -/
def submitStep (c : Consts) (ready : Bool) (s : State) :
    Option (State × Option (Nat × Nat)) :=
  if s.keyDidChange ≠ 0 ∧ ready = true then
    match buildReport c s.lastKey { s with keyDidChange := 0 } with
    | none => none
    | some s => some (s, some s.reportBuffer)
  else
    some (s, none)

/-- One iteration of the `for(;;)` loop (lines 129-161). -/
def loopIteration (c : Consts) (inp : Input) (s : State) :
    Option (State × Option (Nat × Nat)) :=
  match pollStep c inp s with
  | none => none
  | some s =>
    match sampleStep inp.PINB s with
    | none => none
    | some s => submitStep c inp.ready (idleStep inp.tov0 s)

/-- The loop run over a finite list of inputs, one per iteration; the result
is the final state and, per iteration, what was submitted. -/
def runLoop (c : Consts) : List Input → State → Option (State × List (Option (Nat × Nat)))
  | [], s => some (s, [])
  | inp :: rest, s =>
    match loopIteration c inp s with
    | none => none
    | some (s, out) =>
      match runLoop c rest s with
      | none => none
      | some (s, outs) => some (s, out :: outs)

/-- State at the start of iteration `n` of a run (iterations are counted from
0), that is, after `n` complete iterations. -/
def stateAt (c : Consts) (inputs : List Input) (s : State) (n : Nat) : Option State :=
  match runLoop c (inputs.take n) s with
  | none => none
  | some r => some r.1

/-- What iteration `n` of a run hands to `usbSetInterrupt`: `some none` when the
iteration submits nothing, `none` when the run has no iteration `n`. -/
def outputAt (c : Consts) (inputs : List Input) (s : State) (n : Nat) :
    Option (Option (Nat × Nat)) :=
  match inputs[n]?, stateAt c inputs s n with
  | some inp, some sn =>
    match loopIteration c inp sn with
    | none => none
    | some r => some r.2
  | _, _ => none

/-- In iteration `n` of a run the test `lastKey != key` of line 135 succeeds:
the key sampled differs from `lastKey`. -/
def keyChangesAt (c : Consts) (inputs : List Input) (s : State) (n : Nat) : Prop :=
  ∃ inp sn sp k, inputs[n]? = some inp ∧ stateAt c inputs s n = some sn ∧
    pollStep c inp sn = some sp ∧ keyPressed inp.PINB = some k ∧ sp.lastKey ≠ k

/-- In iteration `n` of a run the idle timer takes the branch of lines 148-149:
the timer has overflowed, the idle rate is not 0 and the counter is at most 4,
so that the counter is reloaded with the idle rate `R` then in effect. -/
def reloadsAt (c : Consts) (inputs : List Input) (s : State) (n : Nat) (R : Nat) : Prop :=
  ∃ inp sn sp, inputs[n]? = some inp ∧ stateAt c inputs s n = some sn ∧
    pollStep c inp sn = some sp ∧ inp.tov0 = true ∧ sp.idleRate ≠ 0 ∧
    ¬ sp.idleCounter > 4 ∧ sp.idleRate = R

/-- Array `usbHidReportDescriptor[35]` (lines 48-67), byte by byte.  Bytes 28
to 31 are the items `USAGE_MINIMUM (0)` and `USAGE_MAXIMUM (101)` of the
keycode field, bytes 26 and 27 its `LOGICAL_MAXIMUM (101)`. -/
def usbHidReportDescriptor : List Nat :=
  [ 0x05, 0x01, 0x09, 0x06, 0xa1, 0x01, 0x05, 0x07, 0x19, 0xe0, 0x29, 0xe7,
    0x15, 0x00, 0x25, 0x01, 0x75, 0x01, 0x95, 0x08, 0x81, 0x02, 0x95, 0x01,
    0x75, 0x08, 0x25, 0x65, 0x19, 0x00, 0x29, 0x65, 0x81, 0x00, 0xc0 ]

/-- A setup packet given by the list of its bytes (missing bytes read 0). -/
def packet (bytes : List Nat) : Fin 8 → Nat :=
  fun i => bytes.getD i.val 0

/-! ## Basic facts -/

/-- The loop of `keyPressed` always ends within nine tests, with a result in
`0..8`. -/
theorem keyPressed_total (PINB : Nat) : ∃ k, keyPressed PINB = some k ∧ k ≤ 8 := by
  simp only [keyPressed, keyPressedLoop]
  norm_num
  split_ifs <;> simp

/-- The rows of the table hold bytes. -/
theorem keyReport_bytes (c : Consts) (k : Nat) (row : Nat × Nat)
    (h : (keyReport c)[k]? = some row) : row.1 < 256 ∧ row.2 < 256 := by
  have hmem : row ∈ keyReport c := List.getElem?_mem h
  simp only [keyReport, List.mem_cons, List.mem_singleton, List.mem_nil_iff, or_false] at hmem
  rcases hmem with h | h | h | h | h | h | h | h | h <;> subst h <;>
    exact ⟨by norm_num, by first | exact Nat.mod_lt _ (by norm_num) | norm_num⟩

/-- Every index in `0..8` has a row. -/
theorem keyReport_row (c : Consts) (k : Nat) (hk : k ≤ 8) :
    ∃ row, (keyReport c)[k]? = some row := by
  have hlen : k < (keyReport c).length := by simp [keyReport]; omega
  exact ⟨(keyReport c)[k], List.getElem?_eq_getElem hlen⟩

/-- Reading two bytes as a little-endian word, converting the word to `int`
and storing the `int` gives the two bytes back, in the same order. -/
theorem storeInt16_toInt16 (lo hi : Nat) (h1 : lo < 256) (h2 : hi < 256) :
    storeInt16 (toInt16 (pgm_read_word (lo, hi))) = (lo, hi) := by
  unfold storeInt16 toInt16 pgm_read_word
  split_ifs <;> (refine Prod.ext ?_ ?_ <;> simp only <;> omega)

/-- The word copy of `buildReport` writes exactly the two bytes of the row. -/
theorem buildReport_row (c : Consts) (k : Nat) (row : Nat × Nat) (s : State)
    (h : (keyReport c)[k]? = some row) :
    buildReport c k s = some { s with reportBuffer := row } := by
  obtain ⟨h1, h2⟩ := keyReport_bytes c k row h
  have e : storeInt16 (toInt16 (pgm_read_word row)) = row :=
    storeInt16_toInt16 row.1 row.2 h1 h2
  simp only [buildReport, h, e]

/-- A class GET_REPORT request: the buffer receives the row of the sampled
key, the length is 2. -/
theorem usbFunctionSetup_getReport (c : Consts) (PINB : Nat) (data : Fin 8 → Nat) (s : State)
    (k : Nat) (row : Nat × Nat)
    (hcls : data 0 &&& c.USBRQ_TYPE_MASK = c.USBRQ_TYPE_CLASS)
    (hgr : data 1 = c.USBRQ_HID_GET_REPORT)
    (hk : keyPressed PINB = some k) (hrow : (keyReport c)[k]? = some row) :
    usbFunctionSetup c PINB data s =
      some (2, { s with usbMsgPtr := MsgPtr.reportBuffer, reportBuffer := row }) := by
  simp only [usbFunctionSetup, castRequest, if_pos hcls, if_pos hgr, hk,
    buildReport_row c k row _ hrow]

/-- A class GET_IDLE request: the pointer is set to `idleRate`, the length is 1. -/
theorem usbFunctionSetup_getIdle (c : Consts) (PINB : Nat) (data : Fin 8 → Nat) (s : State)
    (hcls : data 0 &&& c.USBRQ_TYPE_MASK = c.USBRQ_TYPE_CLASS)
    (hgr : data 1 ≠ c.USBRQ_HID_GET_REPORT)
    (hgi : data 1 = c.USBRQ_HID_GET_IDLE) :
    usbFunctionSetup c PINB data s = some (1, { s with usbMsgPtr := MsgPtr.idleRate }) := by
  simp only [usbFunctionSetup, castRequest, if_pos hcls, if_neg hgr, if_pos hgi]

/-- A class SET_IDLE request: `idleRate` receives byte 3, the length is 0. -/
theorem usbFunctionSetup_setIdle (c : Consts) (PINB : Nat) (data : Fin 8 → Nat) (s : State)
    (hcls : data 0 &&& c.USBRQ_TYPE_MASK = c.USBRQ_TYPE_CLASS)
    (hgr : data 1 ≠ c.USBRQ_HID_GET_REPORT)
    (hgi : data 1 ≠ c.USBRQ_HID_GET_IDLE)
    (hsi : data 1 = c.USBRQ_HID_SET_IDLE) :
    usbFunctionSetup c PINB data s =
      some (0, { s with usbMsgPtr := MsgPtr.reportBuffer, idleRate := data 3 }) := by
  simp only [usbFunctionSetup, castRequest, if_pos hcls, if_neg hgr, if_neg hgi, if_pos hsi]

/-- Any other request: only the pointer is set, the length is 0. -/
theorem usbFunctionSetup_other (c : Consts) (PINB : Nat) (data : Fin 8 → Nat) (s : State)
    (h : data 0 &&& c.USBRQ_TYPE_MASK ≠ c.USBRQ_TYPE_CLASS ∨
      (data 1 ≠ c.USBRQ_HID_GET_REPORT ∧ data 1 ≠ c.USBRQ_HID_GET_IDLE ∧
        data 1 ≠ c.USBRQ_HID_SET_IDLE)) :
    usbFunctionSetup c PINB data s = some (0, { s with usbMsgPtr := MsgPtr.reportBuffer }) := by
  by_cases hcls : data 0 &&& c.USBRQ_TYPE_MASK = c.USBRQ_TYPE_CLASS
  · rcases h with h | ⟨hgr, hgi, hsi⟩
    · exact absurd hcls h
    · simp only [usbFunctionSetup, castRequest, if_pos hcls, if_neg hgr, if_neg hgi, if_neg hsi]
  · simp only [usbFunctionSetup, castRequest, if_neg hcls]

/-! ## Key sampler: lowest asserted line wins -/

set_option maxRecDepth 100000 in
/-- The sampler returns the 1-based position of the lowest zero bit. -/
theorem keyPressed_lowest_aux : ∀ p < 256, ∀ i, i < 8 → p.testBit i = false →
    (∀ j, j < i → p.testBit j = true) → keyPressed p = some (i + 1) := by
  decide

set_option maxRecDepth 100000 in
/-- A byte other than `0xFF` has a lowest zero bit. -/
theorem lowest_zero_bit_aux : ∀ p < 256, p ≠ 0xFF →
    ∃ i, i < 8 ∧ p.testBit i = false ∧ (∀ j, j < i → p.testBit j = true) := by
  decide

/-- C1: for every 8-bit value `p` of `PINB`, if `i` (in `0..7`) is the smallest
bit position at which `p` is 0 then `keyPressed` returns `i + 1`, whatever the
higher bits are; such a position exists whenever `p` is not `0xFF`; and for
`p = 0xFF` the result is 0. -/
theorem keyPressed_lowest_asserted (p : Nat) (hp : p < 256) :
    (∀ i, i < 8 → p.testBit i = false → (∀ j, j < i → p.testBit j = true) →
        keyPressed p = some (i + 1)) ∧
    (p ≠ 0xFF → ∃ i, i < 8 ∧ p.testBit i = false ∧ (∀ j, j < i → p.testBit j = true)) ∧
    (p = 0xFF → keyPressed p = some 0) := by
  refine ⟨keyPressed_lowest_aux p hp, lowest_zero_bit_aux p hp, ?_⟩
  intro h
  subst h
  decide

/-- C1, the two scenarios of the specification: only line 0 low gives 1, and a
value with lines 0, 2 and 5 low gives 1 as well. -/
theorem keyPressed_lowest_asserted_witness :
    keyPressed 0b11111110 = some 1 ∧ keyPressed 0b11011010 = some 1 :=
  ⟨(keyPressed_lowest_asserted 0b11111110 (by decide)).1 0 (by decide) (by decide)
      (by decide),
   (keyPressed_lowest_asserted 0b11011010 (by decide)).1 0 (by decide) (by decide)
      (by decide)⟩

/-! ## Control requests -/

/-- C2: the length returned by `usbFunctionSetup` is 2 exactly for a class
request with request code GET_REPORT, 1 exactly for a class request with
request code GET_IDLE, and 0 in every other case (the two request codes being
different constants). -/
theorem usbFunctionSetup_length (c : Consts) (PINB : Nat) (data : Fin 8 → Nat) (s : State)
    (hne : c.USBRQ_HID_GET_REPORT ≠ c.USBRQ_HID_GET_IDLE) :
    ∃ len s', usbFunctionSetup c PINB data s = some (len, s') ∧
      (len = 2 ↔ (data 0 &&& c.USBRQ_TYPE_MASK = c.USBRQ_TYPE_CLASS ∧
        data 1 = c.USBRQ_HID_GET_REPORT)) ∧
      (len = 1 ↔ (data 0 &&& c.USBRQ_TYPE_MASK = c.USBRQ_TYPE_CLASS ∧
        data 1 = c.USBRQ_HID_GET_IDLE)) ∧
      (len = 0 ↔ ¬ (data 0 &&& c.USBRQ_TYPE_MASK = c.USBRQ_TYPE_CLASS ∧
        (data 1 = c.USBRQ_HID_GET_REPORT ∨ data 1 = c.USBRQ_HID_GET_IDLE))) := by
  obtain ⟨k, hk, hk8⟩ := keyPressed_total PINB
  obtain ⟨row, hrow⟩ := keyReport_row c k hk8
  by_cases hcls : data 0 &&& c.USBRQ_TYPE_MASK = c.USBRQ_TYPE_CLASS
  · by_cases hgr : data 1 = c.USBRQ_HID_GET_REPORT
    · have hgi : ¬ data 1 = c.USBRQ_HID_GET_IDLE := fun h => hne (hgr.symm.trans h)
      refine ⟨2, _, usbFunctionSetup_getReport c PINB data s k row hcls hgr hk hrow, ?_⟩
      simp [hcls, hgr, hne]
    · by_cases hgi : data 1 = c.USBRQ_HID_GET_IDLE
      · refine ⟨1, _, usbFunctionSetup_getIdle c PINB data s hcls hgr hgi, ?_⟩
        simp [hcls, hgi, Ne.symm hne]
      · by_cases hsi : data 1 = c.USBRQ_HID_SET_IDLE
        · refine ⟨0, _, usbFunctionSetup_setIdle c PINB data s hcls hgr hgi hsi, ?_⟩
          simp [hcls, hgr, hgi]
        · refine ⟨0, _, usbFunctionSetup_other c PINB data s (Or.inr ⟨hgr, hgi, hsi⟩), ?_⟩
          simp [hcls, hgr, hgi]
  · refine ⟨0, _, usbFunctionSetup_other c PINB data s (Or.inl hcls), ?_⟩
    simp [hcls]

/-- C2 at the constants of the USB and HID specifications, for a class
GET_REPORT packet. -/
theorem usbFunctionSetup_length_witness :
    ∃ len s', usbFunctionSetup stdConsts 0xFE (packet [0xA1, 0x01, 0, 1, 0, 0, 2, 0])
        (boot (MsgPtr.other 0)) = some (len, s') ∧
      (len = 2 ↔ (packet [0xA1, 0x01, 0, 1, 0, 0, 2, 0] 0 &&& stdConsts.USBRQ_TYPE_MASK
          = stdConsts.USBRQ_TYPE_CLASS ∧
        packet [0xA1, 0x01, 0, 1, 0, 0, 2, 0] 1 = stdConsts.USBRQ_HID_GET_REPORT)) ∧
      (len = 1 ↔ (packet [0xA1, 0x01, 0, 1, 0, 0, 2, 0] 0 &&& stdConsts.USBRQ_TYPE_MASK
          = stdConsts.USBRQ_TYPE_CLASS ∧
        packet [0xA1, 0x01, 0, 1, 0, 0, 2, 0] 1 = stdConsts.USBRQ_HID_GET_IDLE)) ∧
      (len = 0 ↔ ¬ (packet [0xA1, 0x01, 0, 1, 0, 0, 2, 0] 0 &&& stdConsts.USBRQ_TYPE_MASK
          = stdConsts.USBRQ_TYPE_CLASS ∧
        (packet [0xA1, 0x01, 0, 1, 0, 0, 2, 0] 1 = stdConsts.USBRQ_HID_GET_REPORT ∨
          packet [0xA1, 0x01, 0, 1, 0, 0, 2, 0] 1 = stdConsts.USBRQ_HID_GET_IDLE))) :=
  usbFunctionSetup_length stdConsts 0xFE (packet [0xA1, 0x01, 0, 1, 0, 0, 2, 0])
    (boot (MsgPtr.other 0)) (by decide)

/-- C3: handling a class GET_REPORT request while `PINB` shows `p` returns
length 2 with `usbMsgPtr` at the report buffer, and the buffer then holds the
table row of the key `keyPressed` computes from `p`.  The key and the row are
fixed by `p` alone: the same for every prior buffer content, `lastKey`,
`idleRate` and packet payload; `idleRate`, `lastKey`, `keyDidChange` and
`idleCounter` keep their values. -/
theorem getReport_instantaneous (c : Consts) (p : Nat) :
    ∃ k row, keyPressed p = some k ∧ (keyReport c)[k]? = some row ∧
      ∀ (data : Fin 8 → Nat) (s : State),
        data 0 &&& c.USBRQ_TYPE_MASK = c.USBRQ_TYPE_CLASS →
        data 1 = c.USBRQ_HID_GET_REPORT →
        ∃ s', usbFunctionSetup c p data s = some (2, s') ∧
          s'.usbMsgPtr = MsgPtr.reportBuffer ∧ s'.reportBuffer = row ∧
          s'.idleRate = s.idleRate ∧ s'.lastKey = s.lastKey ∧
          s'.keyDidChange = s.keyDidChange ∧ s'.idleCounter = s.idleCounter := by
  obtain ⟨k, hk, hk8⟩ := keyPressed_total p
  obtain ⟨row, hrow⟩ := keyReport_row c k hk8
  refine ⟨k, row, hk, hrow, ?_⟩
  intro data s hcls hgr
  exact ⟨_, usbFunctionSetup_getReport c p data s k row hcls hgr hk hrow,
    rfl, rfl, rfl, rfl, rfl, rfl⟩

/-- C3 on an example: with `lastKey = 3` latched, a previously sent report
`(0, 6)` still in the buffer and only line 0 low, GET_REPORT answers with the
row of key 1, which is not the row of `lastKey`. -/
theorem getReport_instantaneous_witness :
    ∃ s', usbFunctionSetup stdConsts 0xFE (packet [0xA1, 0x01, 0, 1, 0, 0, 2, 0])
        { boot (MsgPtr.other 0) with lastKey := 3, reportBuffer := (0, 6), idleRate := 20 }
          = some (2, s') ∧
      s'.reportBuffer = (0, 4) ∧ (keyReport stdConsts)[3]? = some (0, 6) ∧
      s'.lastKey = 3 ∧ s'.idleRate = 20 := by
  obtain ⟨k, row, hk, hrow, h⟩ := getReport_instantaneous stdConsts 0xFE
  have hk1 : k = 1 := by
    have : keyPressed 0xFE = some 1 := by decide
    rw [this] at hk
    exact (Option.some.inj hk).symm
  subst hk1
  have hr : row = (0, 4) := by
    have : (keyReport stdConsts)[1]? = some (0, 4) := by decide
    rw [this] at hrow
    exact (Option.some.inj hrow).symm
  subst hr
  obtain ⟨s', hs, _, hb, hi, hl, _, _⟩ :=
    h (packet [0xA1, 0x01, 0, 1, 0, 0, 2, 0])
      { boot (MsgPtr.other 0) with lastKey := 3, reportBuffer := (0, 6), idleRate := 20 }
      (by decide) (by decide)
  exact ⟨s', hs, hb, by decide, hl, hi⟩

/-- C4: a class SET_IDLE request whose byte 3 (the high byte of `wValue`) is
`v` returns length 0 and leaves `idleRate = v`, whatever the other bytes of the
packet and the prior state are; a class GET_IDLE request handled in any later
state whose `idleRate` has not been written since returns length 1 with
`usbMsgPtr` at `idleRate`, which holds `v`.  (The three request codes are
different constants.) -/
theorem setIdle_getIdle_roundtrip (c : Consts)
    (h1 : c.USBRQ_HID_SET_IDLE ≠ c.USBRQ_HID_GET_REPORT)
    (h2 : c.USBRQ_HID_SET_IDLE ≠ c.USBRQ_HID_GET_IDLE)
    (h3 : c.USBRQ_HID_GET_IDLE ≠ c.USBRQ_HID_GET_REPORT)
    (v p p' : Nat) (setIdle getIdle : Fin 8 → Nat) (s : State)
    (hcls : setIdle 0 &&& c.USBRQ_TYPE_MASK = c.USBRQ_TYPE_CLASS)
    (hsi : setIdle 1 = c.USBRQ_HID_SET_IDLE) (hv : setIdle 3 = v)
    (hcls' : getIdle 0 &&& c.USBRQ_TYPE_MASK = c.USBRQ_TYPE_CLASS)
    (hgi : getIdle 1 = c.USBRQ_HID_GET_IDLE) :
    ∃ s1, usbFunctionSetup c p setIdle s = some (0, s1) ∧ s1.idleRate = v ∧
      ∀ s2 : State, s2.idleRate = s1.idleRate →
        ∃ s3, usbFunctionSetup c p' getIdle s2 = some (1, s3) ∧
          s3.usbMsgPtr = MsgPtr.idleRate ∧ s3.idleRate = v := by
  have e1 := usbFunctionSetup_setIdle c p setIdle s hcls (hsi ▸ h1) (hsi ▸ h2) hsi
  refine ⟨_, e1, hv, ?_⟩
  intro s2 hs2
  refine ⟨_, usbFunctionSetup_getIdle c p' getIdle s2 hcls' (hgi ▸ h3) hgi, rfl, ?_⟩
  simpa [hv] using hs2

/-- C4 on the scenario of the specification: SET_IDLE with value 20, then
GET_IDLE reads back 20. -/
theorem setIdle_getIdle_roundtrip_witness :
    ∃ s1, usbFunctionSetup stdConsts 0xFF (packet [0x21, 0x0a, 0x55, 20, 0, 0, 0, 0])
        (boot (MsgPtr.other 0)) = some (0, s1) ∧ s1.idleRate = 20 ∧
      ∀ s2 : State, s2.idleRate = s1.idleRate →
        ∃ s3, usbFunctionSetup stdConsts 0xFF (packet [0xA1, 0x02, 0, 0, 0, 0, 1, 0]) s2
            = some (1, s3) ∧
          s3.usbMsgPtr = MsgPtr.idleRate ∧ s3.idleRate = 20 :=
  setIdle_getIdle_roundtrip stdConsts (by decide) (by decide) (by decide) 20 0xFF 0xFF
    (packet [0x21, 0x0a, 0x55, 20, 0, 0, 0, 0]) (packet [0xA1, 0x02, 0, 0, 0, 0, 1, 0])
    (boot (MsgPtr.other 0)) (by decide) (by decide) (by decide) (by decide) (by decide)

/-- C5: a setup packet that is not a class request, or a class request whose
code is none of GET_REPORT, GET_IDLE and SET_IDLE, gets a zero-length response,
and `idleRate`, the report buffer, `lastKey`, `keyDidChange` and `idleCounter`
are the same after the call as before. -/
theorem unknown_request_no_mutation (c : Consts) (p : Nat) (data : Fin 8 → Nat) (s : State)
    (h : data 0 &&& c.USBRQ_TYPE_MASK ≠ c.USBRQ_TYPE_CLASS ∨
      (data 1 ≠ c.USBRQ_HID_GET_REPORT ∧ data 1 ≠ c.USBRQ_HID_GET_IDLE ∧
        data 1 ≠ c.USBRQ_HID_SET_IDLE)) :
    ∃ s', usbFunctionSetup c p data s = some (0, s') ∧
      s'.idleRate = s.idleRate ∧ s'.reportBuffer = s.reportBuffer ∧
      s'.lastKey = s.lastKey ∧ s'.keyDidChange = s.keyDidChange ∧
      s'.idleCounter = s.idleCounter :=
  ⟨_, usbFunctionSetup_other c p data s h, rfl, rfl, rfl, rfl, rfl⟩

/-- C5 on two packets: a class request with the undefined code `0x0b`, and a
standard (non-class) request whose code equals that of SET_IDLE. -/
theorem unknown_request_no_mutation_witness :
    (∃ s', usbFunctionSetup stdConsts 0xFE (packet [0x21, 0x0b, 0, 7, 0, 0, 0, 0])
        { boot (MsgPtr.other 0) with idleRate := 20, idleCounter := 10 } = some (0, s') ∧
      s'.idleRate = 20 ∧ s'.reportBuffer = (0, 0) ∧ s'.lastKey = 0 ∧
      s'.keyDidChange = 0 ∧ s'.idleCounter = 10) ∧
    (∃ s', usbFunctionSetup stdConsts 0xFE (packet [0x00, 0x0a, 0, 7, 0, 0, 0, 0])
        { boot (MsgPtr.other 0) with idleRate := 20, idleCounter := 10 } = some (0, s') ∧
      s'.idleRate = 20 ∧ s'.reportBuffer = (0, 0) ∧ s'.lastKey = 0 ∧
      s'.keyDidChange = 0 ∧ s'.idleCounter = 10) :=
  ⟨unknown_request_no_mutation stdConsts 0xFE (packet [0x21, 0x0b, 0, 7, 0, 0, 0, 0])
      { boot (MsgPtr.other 0) with idleRate := 20, idleCounter := 10 }
      (Or.inr ⟨by decide, by decide, by decide⟩),
   unknown_request_no_mutation stdConsts 0xFE (packet [0x00, 0x0a, 0, 7, 0, 0, 0, 0])
      { boot (MsgPtr.other 0) with idleRate := 20, idleCounter := 10 }
      (Or.inl (by decide))⟩

/-! ## Idle timer -/

/-- A tick with a non-zero idle rate and a counter above 4: subtract 5. -/
theorem idleStep_decrement (s : State) (hR : s.idleRate ≠ 0) (hc : s.idleCounter < 256)
    (h : 4 < s.idleCounter) :
    idleStep true s = { s with idleCounter := s.idleCounter - 5 } := by
  have e : (s.idleCounter + 256 - 5) % 256 = s.idleCounter - 5 := by omega
  simp only [idleStep, if_true, if_pos hR, gt_iff_lt, if_pos h, e]

/-- A tick with a non-zero idle rate and a counter of at most 4: reload and
set the flag. -/
theorem idleStep_reload (s : State) (hR : s.idleRate ≠ 0) (h : ¬ 4 < s.idleCounter) :
    idleStep true s = { s with idleCounter := s.idleRate, keyDidChange := 1 } := by
  simp only [idleStep, if_true, if_pos hR, gt_iff_lt, if_neg h]

/-- With idle rate 0, or without a timer overflow, the idle step does nothing. -/
theorem idleStep_off (tov0 : Bool) (s : State) (h : s.idleRate = 0 ∨ tov0 = false) :
    idleStep tov0 s = s := by
  rcases h with h | h
  · cases tov0 <;> simp [idleStep, h]
  · simp [idleStep, h]

/-- C6, counterexample: with idle rate 20 and the counter at 5, a tick leaves
the counter at 0 and the flag clear; it neither reloads the counter with the
idle rate nor forces a retransmission. -/
theorem idle_tick_at_five_counterexample :
    (idleStep true ⟨(0, 0), 20, MsgPtr.reportBuffer, 0, 0, 5⟩).idleCounter = 0 ∧
    (idleStep true ⟨(0, 0), 20, MsgPtr.reportBuffer, 0, 0, 5⟩).keyDidChange = 0 ∧
    ¬ ((idleStep true ⟨(0, 0), 20, MsgPtr.reportBuffer, 0, 0, 5⟩).idleCounter = 20 ∧
       (idleStep true ⟨(0, 0), 20, MsgPtr.reportBuffer, 0, 0, 5⟩).keyDidChange = 1) := by
  decide

/-- C6, amended: for a non-zero idle rate and a counter byte `c`, a tick with
`c ≥ 5` makes the counter `c - 5` and leaves the flag as it was (no
retransmission is forced); a tick with `c < 5` resets the counter to the idle
rate and sets the flag.  At `c = 5` the tick counts down to 0 and does not
fire. -/
theorem idle_tick_rule_amended (s : State) (hR : s.idleRate ≠ 0) (hc : s.idleCounter < 256) :
    (5 ≤ s.idleCounter →
      (idleStep true s).idleCounter = s.idleCounter - 5 ∧
      (idleStep true s).keyDidChange = s.keyDidChange) ∧
    (s.idleCounter < 5 →
      (idleStep true s).idleCounter = s.idleRate ∧
      (idleStep true s).keyDidChange = 1) ∧
    (s.idleCounter = 5 →
      (idleStep true s).idleCounter = 0 ∧
      (idleStep true s).keyDidChange = s.keyDidChange) := by
  refine ⟨fun h => ?_, fun h => ?_, fun h => ?_⟩
  · rw [idleStep_decrement s hR hc (by omega)]
    exact ⟨rfl, rfl⟩
  · rw [idleStep_reload s hR (by omega)]
    exact ⟨rfl, rfl⟩
  · rw [idleStep_decrement s hR hc (by omega)]
    exact ⟨by simp [h], rfl⟩

/-- C6, amended, on examples: counters 5 and 4 with idle rate 20. -/
theorem idle_tick_rule_amended_witness :
    ((idleStep true ⟨(0, 0), 20, MsgPtr.reportBuffer, 0, 0, 5⟩).idleCounter = 0 ∧
      (idleStep true ⟨(0, 0), 20, MsgPtr.reportBuffer, 0, 0, 5⟩).keyDidChange = 0) ∧
    ((idleStep true ⟨(0, 0), 20, MsgPtr.reportBuffer, 0, 0, 4⟩).idleCounter = 20 ∧
      (idleStep true ⟨(0, 0), 20, MsgPtr.reportBuffer, 0, 0, 4⟩).keyDidChange = 1) :=
  ⟨(idle_tick_rule_amended ⟨(0, 0), 20, MsgPtr.reportBuffer, 0, 0, 5⟩ (by decide)
      (by decide)).2.2 rfl,
   (idle_tick_rule_amended ⟨(0, 0), 20, MsgPtr.reportBuffer, 0, 0, 4⟩ (by decide)
      (by decide)).2.1 (by decide)⟩

/-- C7: for a non-zero idle rate and a counter byte `c`, a tick with `c > 4`
changes nothing but the counter, which becomes `c - 5`; a tick with `c ≤ 4`
changes nothing but the counter, which becomes the idle rate, and the flag,
which becomes set.  `lastKey` and `idleRate` keep their values. -/
theorem idle_tick_decrement_or_reload (s : State) (hR : s.idleRate ≠ 0) (hc : s.idleCounter < 256) :
    (s.idleCounter > 4 →
      idleStep true s = { s with idleCounter := s.idleCounter - 5 }) ∧
    (s.idleCounter ≤ 4 →
      idleStep true s = { s with idleCounter := s.idleRate, keyDidChange := 1 }) ∧
    (idleStep true s).lastKey = s.lastKey ∧ (idleStep true s).idleRate = s.idleRate := by
  by_cases h : 4 < s.idleCounter
  · have e := idleStep_decrement s hR hc h
    exact ⟨fun _ => e, fun h' => absurd h (by omega), by rw [e], by rw [e]⟩
  · have e := idleStep_reload s hR h
    exact ⟨fun h' => absurd h' h, fun _ => e, by rw [e], by rw [e]⟩

/-- C7 on examples: counters 7 and 3 with idle rate 20, key 2 latched. -/
theorem idle_tick_decrement_or_reload_witness :
    idleStep true ⟨(0, 5), 20, MsgPtr.reportBuffer, 2, 0, 7⟩
      = ⟨(0, 5), 20, MsgPtr.reportBuffer, 2, 0, 2⟩ ∧
    idleStep true ⟨(0, 5), 20, MsgPtr.reportBuffer, 2, 0, 3⟩
      = ⟨(0, 5), 20, MsgPtr.reportBuffer, 2, 1, 20⟩ :=
  ⟨(idle_tick_decrement_or_reload ⟨(0, 5), 20, MsgPtr.reportBuffer, 2, 0, 7⟩ (by decide) (by decide)).1
      (by decide),
   (idle_tick_decrement_or_reload ⟨(0, 5), 20, MsgPtr.reportBuffer, 2, 0, 3⟩ (by decide) (by decide)).2.1
      (by decide)⟩

/-- After `k ≤ R / 5` ticks from a freshly reloaded counter nothing but the
counter has changed, and it stands at `R - 5 * k`. -/
theorem idle_countdown (R : Nat) (h1 : 1 ≤ R) (h2 : R ≤ 255) (s : State)
    (hr : s.idleRate = R) (hc : s.idleCounter = R) :
    ∀ k, k ≤ R / 5 → (idleStep true)^[k] s = { s with idleCounter := R - 5 * k } := by
  intro k
  induction k with
  | zero =>
    intro _
    cases s
    simp only at hc
    simp [hc]
  | succ k ih =>
    intro hk
    rw [Function.iterate_succ_apply', ih (by omega)]
    rw [idleStep_decrement _ (by simp only [hr]; omega) (by simp only; omega)
      (by simp only; omega)]
    simp only [State.mk.injEq, true_and, and_true]
    omega

/-- C8: with the idle rate held at `R` in `1..255` and the counter just
reloaded (`idleCounter = R`), each of the first `R / 5` ticks only counts down
(after `k` of them the counter is `R - 5 * k` and the flag is as it was), and
tick number `R / 5 + 1` reloads the counter and sets the flag.  So forced
reports are `5 * (R / 5 + 1)` idle units apart, more than `R` and at most
`R + 5`. -/
theorem idle_rate_law (R : Nat) (h1 : 1 ≤ R) (h2 : R ≤ 255) (s : State)
    (hr : s.idleRate = R) (hc : s.idleCounter = R) :
    (∀ k, k ≤ R / 5 → (idleStep true)^[k] s = { s with idleCounter := R - 5 * k }) ∧
    (idleStep true)^[R / 5 + 1] s = { s with idleCounter := R, keyDidChange := 1 } ∧
    R < 5 * (R / 5 + 1) ∧ 5 * (R / 5 + 1) ≤ R + 5 := by
  refine ⟨idle_countdown R h1 h2 s hr hc, ?_, by omega, by omega⟩
  rw [Function.iterate_succ_apply', idle_countdown R h1 h2 s hr hc (R / 5) le_rfl]
  rw [idleStep_reload _ (by simp only [hr]; omega) (by simp only; omega)]
  simp only [hr]

/-- C8 at the rate of the specification scenario, `R = 20`: four ticks count
down, the fifth reloads and sets the flag, 25 idle units after the last forced
report. -/
theorem idle_rate_law_witness :
    (∀ k, k ≤ 20 / 5 → (idleStep true)^[k] ⟨(0, 0), 20, MsgPtr.reportBuffer, 0, 0, 20⟩
      = ⟨(0, 0), 20, MsgPtr.reportBuffer, 0, 0, 20 - 5 * k⟩) ∧
    (idleStep true)^[20 / 5 + 1] ⟨(0, 0), 20, MsgPtr.reportBuffer, 0, 0, 20⟩
      = ⟨(0, 0), 20, MsgPtr.reportBuffer, 0, 1, 20⟩ ∧
    20 < 5 * (20 / 5 + 1) ∧ 5 * (20 / 5 + 1) ≤ 20 + 5 :=
  idle_rate_law 20 (by decide) (by decide) ⟨(0, 0), 20, MsgPtr.reportBuffer, 0, 0, 20⟩ rfl rfl

/-! ## One loop iteration -/

/-- The idle step never touches `lastKey`, `idleRate` or the report buffer, and
never clears the flag. -/
theorem idleStep_frame (tov0 : Bool) (s : State) :
    (idleStep tov0 s).lastKey = s.lastKey ∧ (idleStep tov0 s).idleRate = s.idleRate ∧
    (idleStep tov0 s).reportBuffer = s.reportBuffer ∧
    (s.keyDidChange ≠ 0 → (idleStep tov0 s).keyDidChange ≠ 0) := by
  unfold idleStep
  split_ifs <;> simp

/-- The handler always returns, and it leaves the locals of `main` alone. -/
theorem usbFunctionSetup_frame (c : Consts) (p : Nat) (data : Fin 8 → Nat) (s : State) :
    ∃ len s', usbFunctionSetup c p data s = some (len, s') ∧ s'.lastKey = s.lastKey ∧
      s'.keyDidChange = s.keyDidChange ∧ s'.idleCounter = s.idleCounter := by
  obtain ⟨k, hk, hk8⟩ := keyPressed_total p
  obtain ⟨row, hrow⟩ := keyReport_row c k hk8
  by_cases hcls : data 0 &&& c.USBRQ_TYPE_MASK = c.USBRQ_TYPE_CLASS
  · by_cases hgr : data 1 = c.USBRQ_HID_GET_REPORT
    · exact ⟨_, _, usbFunctionSetup_getReport c p data s k row hcls hgr hk hrow, rfl, rfl, rfl⟩
    · by_cases hgi : data 1 = c.USBRQ_HID_GET_IDLE
      · exact ⟨_, _, usbFunctionSetup_getIdle c p data s hcls hgr hgi, rfl, rfl, rfl⟩
      · by_cases hsi : data 1 = c.USBRQ_HID_SET_IDLE
        · exact ⟨_, _, usbFunctionSetup_setIdle c p data s hcls hgr hgi hsi, rfl, rfl, rfl⟩
        · exact ⟨_, _, usbFunctionSetup_other c p data s (Or.inr ⟨hgr, hgi, hsi⟩),
            rfl, rfl, rfl⟩
  · exact ⟨_, _, usbFunctionSetup_other c p data s (Or.inl hcls), rfl, rfl, rfl⟩

/-- Servicing the transport always returns and leaves the locals of `main`
alone. -/
theorem pollStep_frame (c : Consts) (inp : Input) (s : State) :
    ∃ sp, pollStep c inp s = some sp ∧ sp.lastKey = s.lastKey ∧
      sp.keyDidChange = s.keyDidChange ∧ sp.idleCounter = s.idleCounter := by
  unfold pollStep
  cases hsetup : inp.setup with
  | none => exact ⟨s, rfl, rfl, rfl, rfl⟩
  | some data =>
    obtain ⟨len, s', h, h1, h2, h3⟩ := usbFunctionSetup_frame c inp.pinbSetup data s
    simp only [h]
    exact ⟨s', rfl, h1, h2, h3⟩

/-- One iteration, step by step: `sp` is the state after `usbPoll()`, `k` the
key sampled, `si` the state after the idle timer; a report (the row of `k`) is
submitted exactly when the flag is then set and the slot is free. -/
theorem loopIteration_cases (c : Consts) (inp : Input) (s : State) :
    ∃ sp k row si,
      pollStep c inp s = some sp ∧ sp.lastKey = s.lastKey ∧
      sp.keyDidChange = s.keyDidChange ∧ sp.idleCounter = s.idleCounter ∧
      keyPressed inp.PINB = some k ∧ (keyReport c)[k]? = some row ∧
      si = idleStep inp.tov0
        (if sp.lastKey ≠ k then { sp with lastKey := k, keyDidChange := 1 } else sp) ∧
      si.lastKey = k ∧ si.idleRate = sp.idleRate ∧
      loopIteration c inp s =
        if si.keyDidChange ≠ 0 ∧ inp.ready = true then
          some ({ si with keyDidChange := 0, reportBuffer := row }, some row)
        else
          some (si, none) := by
  obtain ⟨sp, hp, h1, h2, h3⟩ := pollStep_frame c inp s
  obtain ⟨k, hk, hk8⟩ := keyPressed_total inp.PINB
  obtain ⟨row, hrow⟩ := keyReport_row c k hk8
  have hf := idleStep_frame inp.tov0
    (if sp.lastKey ≠ k then { sp with lastKey := k, keyDidChange := 1 } else sp)
  have hlast : (idleStep inp.tov0
      (if sp.lastKey ≠ k then { sp with lastKey := k, keyDidChange := 1 } else sp)).lastKey
        = k := by
    rw [hf.1]
    split_ifs with h
    · rfl
    · exact not_not.mp h
  have hrate : (idleStep inp.tov0
      (if sp.lastKey ≠ k then { sp with lastKey := k, keyDidChange := 1 } else sp)).idleRate
        = sp.idleRate := by
    rw [hf.2.1]
    split_ifs <;> rfl
  refine ⟨sp, k, row, _, hp, h1, h2, h3, hk, hrow, rfl, hlast, hrate, ?_⟩
  have hs : sampleStep inp.PINB sp
      = some (if sp.lastKey ≠ k then { sp with lastKey := k, keyDidChange := 1 } else sp) := by
    simp only [sampleStep, hk]
    split_ifs <;> rfl
  simp only [loopIteration, hp, hs, submitStep]
  generalize idleStep inp.tov0
    (if sp.lastKey ≠ k then { sp with lastKey := k, keyDidChange := 1 } else sp) = si at hlast ⊢
  by_cases h : si.keyDidChange ≠ 0 ∧ inp.ready = true
  · rw [if_pos h, if_pos h, hlast, buildReport_row c k row _ hrow]
  · rw [if_neg h, if_neg h]

/-- What one iteration does to the flag and what it submits.  `sp` is the state
after `usbPoll()` and `k` the key sampled.  The flag is cleared only by a
submission; a busy slot submits nothing; a pending flag or a key change is
kept while nothing is submitted and gives the row of `k` once the slot is
free; and with idle rate 0 a submission or a pending flag at the end can only
come from a pending flag at the start or from a key change. -/
theorem loopIteration_summary (c : Consts) (inp : Input) (s : State) :
    ∃ s1 o sp k,
      loopIteration c inp s = some (s1, o) ∧ pollStep c inp s = some sp ∧
      keyPressed inp.PINB = some k ∧ s1.lastKey = k ∧
      (o ≠ none → s1.keyDidChange = 0) ∧
      (inp.ready = false → o = none) ∧
      ((s.keyDidChange ≠ 0 ∨ sp.lastKey ≠ k) →
        (o = none → s1.keyDidChange ≠ 0) ∧
        (inp.ready = true → ∃ row, (keyReport c)[k]? = some row ∧ o = some row ∧
          s1.reportBuffer = row ∧ s1.keyDidChange = 0)) ∧
      (s1.idleRate = 0 → (o ≠ none ∨ s1.keyDidChange ≠ 0) →
        s.keyDidChange ≠ 0 ∨ sp.lastKey ≠ k) := by
  obtain ⟨sp, k, row, si, hp, _, h2, _, hk, hrow, hsi, hlast, hrate, hloop⟩ :=
    loopIteration_cases c inp s
  have hmono : (s.keyDidChange ≠ 0 ∨ sp.lastKey ≠ k) → si.keyDidChange ≠ 0 := by
    intro h
    rw [hsi]
    apply (idleStep_frame _ _).2.2.2
    by_cases hc : sp.lastKey ≠ k
    · rw [if_pos hc]
      exact Nat.one_ne_zero
    · rw [if_neg hc, h2]
      rcases h with h | h
      · exact h
      · exact absurd h hc
  have hzero : si.idleRate = 0 → si.keyDidChange ≠ 0 →
      s.keyDidChange ≠ 0 ∨ sp.lastKey ≠ k := by
    intro hr hf
    by_cases hc : sp.lastKey ≠ k
    · exact Or.inr hc
    · left
      rw [if_neg hc] at hsi
      rw [hsi, idleStep_off _ _ (Or.inl (by rw [← hrate]; exact hr)), h2] at hf
      exact hf
  by_cases hcond : si.keyDidChange ≠ 0 ∧ inp.ready = true
  · rw [if_pos hcond] at hloop
    refine ⟨_, _, sp, k, hloop, hp, hk, hlast, fun _ => rfl, ?_, ?_, ?_⟩
    · intro hr
      rw [hcond.2] at hr
      exact absurd hr (by decide)
    · intro _
      exact ⟨fun h => absurd h (by simp), fun _ => ⟨row, hrow, rfl, rfl, rfl⟩⟩
    · intro hr _
      exact hzero hr hcond.1
  · rw [if_neg hcond] at hloop
    refine ⟨_, _, sp, k, hloop, hp, hk, hlast, fun h => absurd rfl h, fun _ => rfl, ?_, ?_⟩
    · intro h
      refine ⟨fun _ => hmono h, fun hr => ?_⟩
      exact absurd ⟨hmono h, hr⟩ hcond
    · intro hr h
      rcases h with h | h
      · exact absurd rfl h
      · exact hzero hr h

/-! ## Runs of the loop -/

/-- Every run returns. -/
theorem runLoop_total (c : Consts) (inputs : List Input) (s : State) :
    ∃ s' outs, runLoop c inputs s = some (s', outs) := by
  induction inputs generalizing s with
  | nil => exact ⟨s, [], rfl⟩
  | cons inp rest ih =>
    obtain ⟨s1, o, _, _, h, _⟩ := loopIteration_summary c inp s
    obtain ⟨s2, outs, h2⟩ := ih s1
    exact ⟨s2, o :: outs, by simp only [runLoop, h, h2]⟩

/-- A run over a concatenation is the run over the first part followed by the
run over the second. -/
theorem runLoop_append (c : Consts) (a b : List Input) (s s1 s2 : State)
    (o1 o2 : List (Option (Nat × Nat)))
    (h1 : runLoop c a s = some (s1, o1)) (h2 : runLoop c b s1 = some (s2, o2)) :
    runLoop c (a ++ b) s = some (s2, o1 ++ o2) := by
  induction a generalizing s o1 with
  | nil =>
    simp only [runLoop, Option.some.injEq, Prod.mk.injEq] at h1
    obtain ⟨rfl, rfl⟩ := h1
    simpa using h2
  | cons inp rest ih =>
    obtain ⟨sa, o, _, _, h, _⟩ := loopIteration_summary c inp s
    obtain ⟨sb, outs, hb⟩ := runLoop_total c rest sa
    simp only [runLoop, h, hb, Option.some.injEq, Prod.mk.injEq] at h1
    obtain ⟨rfl, rfl⟩ := h1
    have e := ih sa outs hb
    rw [List.cons_append]
    simp only [runLoop, h]
    rw [e]
    rfl

/-- The state at the start of iteration 0 is the start state. -/
theorem stateAt_zero (c : Consts) (inputs : List Input) (s : State) :
    stateAt c inputs s 0 = some s := by
  simp [stateAt, runLoop]

/-- States of a run, one iteration unfolded. -/
theorem stateAt_succ (c : Consts) (inp : Input) (rest : List Input) (s s1 : State)
    (o : Option (Nat × Nat)) (h : loopIteration c inp s = some (s1, o)) (n : Nat) :
    stateAt c (inp :: rest) s (n + 1) = stateAt c rest s1 n := by
  simp only [stateAt, List.take_succ_cons, runLoop, h]
  cases runLoop c (List.take n rest) s1 <;> rfl

/-- Output of the first iteration of a run. -/
theorem outputAt_zero (c : Consts) (inp : Input) (rest : List Input) (s s1 : State)
    (o : Option (Nat × Nat)) (h : loopIteration c inp s = some (s1, o)) :
    outputAt c (inp :: rest) s 0 = some o := by
  simp [outputAt, stateAt_zero, h]

/-- Outputs of a run, one iteration unfolded. -/
theorem outputAt_succ (c : Consts) (inp : Input) (rest : List Input) (s s1 : State)
    (o : Option (Nat × Nat)) (h : loopIteration c inp s = some (s1, o)) (n : Nat) :
    outputAt c (inp :: rest) s (n + 1) = outputAt c rest s1 n := by
  simp only [outputAt, stateAt_succ c inp rest s s1 o h, List.getElem?_cons_succ]

/-- Key changes of a run, one iteration unfolded. -/
theorem keyChangesAt_succ (c : Consts) (inp : Input) (rest : List Input) (s s1 : State)
    (o : Option (Nat × Nat)) (h : loopIteration c inp s = some (s1, o)) (n : Nat) :
    keyChangesAt c (inp :: rest) s (n + 1) ↔ keyChangesAt c rest s1 n := by
  simp only [keyChangesAt, stateAt_succ c inp rest s s1 o h, List.getElem?_cons_succ]

/-- Where a submitted report comes from while the idle rate is 0: going back
from the submitting iteration `n` over iterations that submit nothing, one
reaches either an iteration whose sampled key differs from `lastKey`, or the
start of the run with the flag already set. -/
theorem submission_cause (c : Consts) (inputs : List Input) :
    ∀ s : State,
      (∀ n, n ≤ inputs.length → ∀ sn, stateAt c inputs s n = some sn → sn.idleRate = 0) →
      ∀ n r, outputAt c inputs s n = some (some r) →
        (s.keyDidChange ≠ 0 ∧ ∀ j, j < n → outputAt c inputs s j = some none) ∨
        (∃ m, m ≤ n ∧ keyChangesAt c inputs s m ∧
          ∀ j, m ≤ j → j < n → outputAt c inputs s j = some none) := by
  induction inputs with
  | nil =>
    intro s _ n r h
    simp [outputAt] at h
  | cons inp rest ih =>
    intro s hz n r hout
    obtain ⟨s1, o, sp, k, hloop, hp, hk, _, hclr, _, _, hcause⟩ :=
      loopIteration_summary c inp s
    have hs1 : s1.idleRate = 0 :=
      hz 1 (by simp) s1 (by rw [stateAt_succ c inp rest s s1 o hloop, stateAt_zero])
    have hchg0 : sp.lastKey ≠ k → keyChangesAt c (inp :: rest) s 0 :=
      fun hne => ⟨inp, s, sp, k, by simp, stateAt_zero _ _ _, hp, hk, hne⟩
    cases n with
    | zero =>
      rw [outputAt_zero c inp rest s s1 o hloop] at hout
      have ho : o ≠ none := by
        intro h
        rw [h] at hout
        exact absurd (Option.some.inj hout) (by simp)
      rcases hcause hs1 (Or.inl ho) with h | h
      · exact Or.inl ⟨h, fun j hj => absurd hj (Nat.not_lt_zero j)⟩
      · exact Or.inr ⟨0, le_rfl, hchg0 h, fun j _ h2 => absurd h2 (Nat.not_lt_zero j)⟩
    | succ n =>
      rw [outputAt_succ c inp rest s s1 o hloop] at hout
      have hz' : ∀ m, m ≤ rest.length → ∀ sn, stateAt c rest s1 m = some sn →
          sn.idleRate = 0 :=
        fun m hm sn hsn => hz (m + 1) (by simp only [List.length_cons]; omega) sn
          (by rw [stateAt_succ c inp rest s s1 o hloop]; exact hsn)
      rcases ih s1 hz' n r hout with ⟨hflag, hnone⟩ | ⟨m, hm, hchg, hnone⟩
      · have ho : o = none := by
          by_contra hne
          exact hflag (hclr hne)
        have hall : ∀ j, j < n + 1 → outputAt c (inp :: rest) s j = some none := by
          intro j hj
          cases j with
          | zero => rw [outputAt_zero c inp rest s s1 o hloop, ho]
          | succ j =>
            rw [outputAt_succ c inp rest s s1 o hloop]
            exact hnone j (by omega)
        rcases hcause hs1 (Or.inr hflag) with h | h
        · exact Or.inl ⟨h, hall⟩
        · exact Or.inr ⟨0, Nat.zero_le _, hchg0 h, fun j _ hj => hall j hj⟩
      · refine Or.inr ⟨m + 1, by omega,
          (keyChangesAt_succ c inp rest s s1 o hloop m).mpr hchg, ?_⟩
        intro j h1 h2
        cases j with
        | zero => omega
        | succ j =>
          rw [outputAt_succ c inp rest s s1 o hloop]
          exact hnone j (by omega) (by omega)

/-- While the slot is busy nothing is submitted, and a flag that is set, or
becomes set by a key change, is still set afterwards. -/
theorem busy_run (c : Consts) (busy : List Input) :
    ∀ s : State, (∀ inp, inp ∈ busy → inp.ready = false) →
      ∃ s', runLoop c busy s = some (s', List.replicate busy.length none) ∧
        ((s.keyDidChange ≠ 0 ∨ ∃ m, keyChangesAt c busy s m) → s'.keyDidChange ≠ 0) := by
  induction busy with
  | nil =>
    intro s _
    refine ⟨s, rfl, ?_⟩
    rintro (h | ⟨m, inp, sn, sp, k, h, _⟩)
    · exact h
    · simp at h
  | cons inp rest ih =>
    intro s hb
    obtain ⟨s1, o, sp, k, hloop, hp, hk, _, _, hbusy, hkeep, _⟩ :=
      loopIteration_summary c inp s
    have ho : o = none := hbusy (hb inp (List.mem_cons_self _ _))
    obtain ⟨s2, hrun, hflag⟩ := ih s1 (fun i hi => hb i (List.mem_cons_of_mem _ hi))
    refine ⟨s2, ?_, ?_⟩
    · simp only [runLoop, hloop, hrun, ho, List.length_cons, List.replicate_succ]
    · rintro (h | ⟨m, hm⟩)
      · exact hflag (Or.inl ((hkeep (Or.inl h)).1 ho))
      · cases m with
        | zero =>
          obtain ⟨inp', sn, sp', k', h1, h2, h3, h4, h5⟩ := hm
          simp only [List.getElem?_cons_zero, Option.some.injEq] at h1
          rw [stateAt_zero, Option.some.injEq] at h2
          subst h1 h2
          rw [hp, Option.some.injEq] at h3
          rw [hk, Option.some.injEq] at h4
          subst h3 h4
          exact hflag (Or.inl ((hkeep (Or.inr h5)).1 ho))
        | succ m =>
          exact hflag (Or.inr ⟨m, (keyChangesAt_succ c inp rest s s1 o hloop m).mp hm⟩)

/-! ## Idle rate 0, and key changes while the slot is busy -/

/-- C9, counterexample: from boot, SET_IDLE with rate 20 and a timer overflow
while the slot is busy set the flag; SET_IDLE with rate 0 follows, the slot
still busy.  The run of one iteration that starts there keeps `idleRate = 0`
throughout, samples no key change (no line is low, `lastKey = 0`), and yet
submits the report `(0, 0)` that the idle timer forced. -/
theorem idle_forced_report_at_rate_zero_counterexample :
    runLoop stdConsts
        [⟨some (packet [0x21, 0x0a, 0, 20, 0, 0, 0, 0]), 0xFF, 0xFF, true, false⟩,
          ⟨some (packet [0x21, 0x0a, 0, 0, 0, 0, 0, 0]), 0xFF, 0xFF, false, false⟩]
        (boot (MsgPtr.other 0))
      = some (⟨(0, 0), 0, MsgPtr.reportBuffer, 0, 1, 20⟩, [none, none]) ∧
    stateAt stdConsts [⟨none, 0xFF, 0xFF, true, true⟩]
        ⟨(0, 0), 0, MsgPtr.reportBuffer, 0, 1, 20⟩ 0
      = some ⟨(0, 0), 0, MsgPtr.reportBuffer, 0, 1, 20⟩ ∧
    stateAt stdConsts [⟨none, 0xFF, 0xFF, true, true⟩]
        ⟨(0, 0), 0, MsgPtr.reportBuffer, 0, 1, 20⟩ 1
      = some ⟨(0, 0), 0, MsgPtr.reportBuffer, 0, 0, 20⟩ ∧
    outputAt stdConsts [⟨none, 0xFF, 0xFF, true, true⟩]
        ⟨(0, 0), 0, MsgPtr.reportBuffer, 0, 1, 20⟩ 0
      = some (some (0, 0)) ∧
    ¬ ∃ m, m ≤ 0 ∧ keyChangesAt stdConsts [⟨none, 0xFF, 0xFF, true, true⟩]
        ⟨(0, 0), 0, MsgPtr.reportBuffer, 0, 1, 20⟩ m := by
  refine ⟨by decide, by decide, by decide, by decide, ?_⟩
  rintro ⟨m, hm, inp, sn, sp, k, h1, h2, h3, h4, h5⟩
  obtain rfl : m = 0 := Nat.le_zero.mp hm
  simp only [List.getElem?_cons_zero, Option.some.injEq] at h1
  rw [stateAt_zero, Option.some.injEq] at h2
  subst h1 h2
  simp only [pollStep, Option.some.injEq] at h3
  subst h3
  rw [show keyPressed 0xFF = some 0 from by decide, Option.some.injEq] at h4
  exact h5 h4

/-- C9, amended: with `idleRate = 0` the idle step, with or without a timer
overflow, leaves the whole state as it is, in particular `keyDidChange` and
`idleCounter`.  In a run in which `idleRate` is 0 at the start and after every
iteration, each iteration `n` that submits a report goes back, over iterations
that submit nothing, either to an iteration `m ≤ n` whose sampled key differs
from `lastKey`, or to the start of the run with `keyDidChange` already set.
So when the run starts with the flag clear, as at boot, every submitted report
comes from a key change. -/
theorem idle_rate_zero_disables (c : Consts) :
    (∀ (tov0 : Bool) (s : State), s.idleRate = 0 →
      idleStep tov0 s = s ∧ (idleStep tov0 s).keyDidChange = s.keyDidChange ∧
      (idleStep tov0 s).idleCounter = s.idleCounter) ∧
    (∀ (inputs : List Input) (s : State),
      (∀ n, n ≤ inputs.length → ∀ sn, stateAt c inputs s n = some sn → sn.idleRate = 0) →
      ∀ n r, outputAt c inputs s n = some (some r) →
        (∃ m, m ≤ n ∧ keyChangesAt c inputs s m ∧
          ∀ j, m ≤ j → j < n → outputAt c inputs s j = some none) ∨
        (s.keyDidChange ≠ 0 ∧ ∀ j, j < n → outputAt c inputs s j = some none)) ∧
    (∀ (inputs : List Input) (s : State), s.keyDidChange = 0 →
      (∀ n, n ≤ inputs.length → ∀ sn, stateAt c inputs s n = some sn → sn.idleRate = 0) →
      ∀ n r, outputAt c inputs s n = some (some r) →
        ∃ m, m ≤ n ∧ keyChangesAt c inputs s m ∧
          ∀ j, m ≤ j → j < n → outputAt c inputs s j = some none) := by
  refine ⟨?_, ?_, ?_⟩
  · intro tov0 s h
    have e := idleStep_off tov0 s (Or.inl h)
    exact ⟨e, by rw [e], by rw [e]⟩
  · intro inputs s hz n r hout
    rcases submission_cause c inputs s hz n r hout with h | h
    · exact Or.inr h
    · exact Or.inl h
  · intro inputs s hflag hz n r hout
    rcases submission_cause c inputs s hz n r hout with ⟨h, _⟩ | h
    · exact absurd hflag h
    · exact h

/-- C9, amended, on a run from boot with idle rate 0: the timer overflows in every
iteration, line 1 goes low in iteration 1 while the slot is busy, and the
report submitted in iteration 2 goes back to the key change of iteration 1. -/
theorem idle_rate_zero_disables_witness :
    ∃ m, m ≤ 2 ∧
      keyChangesAt stdConsts
        [⟨none, 0xFF, 0xFF, true, true⟩, ⟨none, 0xFF, 0xFD, true, false⟩,
          ⟨none, 0xFF, 0xFD, true, true⟩] (boot (MsgPtr.other 0)) m ∧
      ∀ j, m ≤ j → j < 2 →
        outputAt stdConsts
          [⟨none, 0xFF, 0xFF, true, true⟩, ⟨none, 0xFF, 0xFD, true, false⟩,
            ⟨none, 0xFF, 0xFD, true, true⟩] (boot (MsgPtr.other 0)) j = some none := by
  refine (idle_rate_zero_disables stdConsts).2.2
    [⟨none, 0xFF, 0xFF, true, true⟩, ⟨none, 0xFF, 0xFD, true, false⟩,
      ⟨none, 0xFF, 0xFD, true, true⟩] (boot (MsgPtr.other 0)) rfl ?_ 2 (0, 5) (by decide)
  intro n hn sn h
  simp only [List.length_cons, List.length_nil] at hn
  interval_cases n
  · rw [show stateAt stdConsts _ (boot (MsgPtr.other 0)) 0 = some (boot (MsgPtr.other 0))
      from by decide] at h
    rw [← Option.some.inj h]
    rfl
  · rw [show stateAt stdConsts _ (boot (MsgPtr.other 0)) 1 = some (boot (MsgPtr.other 0))
      from by decide] at h
    rw [← Option.some.inj h]
    rfl
  · rw [show stateAt stdConsts _ (boot (MsgPtr.other 0)) 2
      = some ⟨(0, 0), 0, MsgPtr.other 0, 2, 1, 0⟩ from by decide] at h
    rw [← Option.some.inj h]
  · rw [show stateAt stdConsts _ (boot (MsgPtr.other 0)) 3
      = some ⟨(0, 5), 0, MsgPtr.other 0, 2, 0, 0⟩ from by decide] at h
    rw [← Option.some.inj h]

/-- C10: let the slot be busy during the iterations `busy`, in at least one of
which the sampled key differs from `lastKey`, and free in the next iteration
`free`.  Then the run submits nothing in the busy iterations and exactly one
report in the free one; that report is the table row of the value `lastKey`
has at that moment, which is the key sampled in the free iteration. -/
theorem coalescing (c : Consts) (busy : List Input) (free : Input) (s : State)
    (hbusy : ∀ inp, inp ∈ busy → inp.ready = false) (hfree : free.ready = true)
    (hchg : ∃ m, m < busy.length ∧ keyChangesAt c busy s m) :
    ∃ s' k row,
      runLoop c (busy ++ [free]) s
        = some (s', List.replicate busy.length none ++ [some row]) ∧
      keyPressed free.PINB = some k ∧ s'.lastKey = k ∧
      (keyReport c)[s'.lastKey]? = some row ∧ s'.reportBuffer = row := by
  obtain ⟨s1, hrun, hflag⟩ := busy_run c busy s hbusy
  obtain ⟨m, _, hm⟩ := hchg
  have hset : s1.keyDidChange ≠ 0 := hflag (Or.inr ⟨m, hm⟩)
  obtain ⟨s2, o, sp, k, hloop, _, hk, hlast, _, _, hkeep, _⟩ :=
    loopIteration_summary c free s1
  obtain ⟨row, hrow, ho, hbuf, _⟩ := (hkeep (Or.inl hset)).2 hfree
  refine ⟨s2, k, row, ?_, hk, hlast, by rw [hlast]; exact hrow, hbuf⟩
  refine runLoop_append c busy [free] s s1 s2 _ _ hrun ?_
  simp only [runLoop, hloop, ho]

/-- C10 on an example from boot: lines 0, then 1, then 2 go low while the slot
is busy (three changes of `lastKey`: 1, 2, 3); the free iteration submits one
report, the row `(0, KEY_C)` of the final key 3. -/
theorem coalescing_witness :
    ∃ s' k row,
      runLoop stdConsts
        ([⟨none, 0xFF, 0xFE, false, false⟩, ⟨none, 0xFF, 0xFD, false, false⟩,
          ⟨none, 0xFF, 0xFB, false, false⟩] ++ [⟨none, 0xFF, 0xFB, false, true⟩])
        (boot (MsgPtr.other 0))
        = some (s', List.replicate
            [(⟨none, 0xFF, 0xFE, false, false⟩ : Input), ⟨none, 0xFF, 0xFD, false, false⟩,
              ⟨none, 0xFF, 0xFB, false, false⟩].length none ++ [some row]) ∧
      keyPressed (⟨none, 0xFF, 0xFB, false, true⟩ : Input).PINB = some k ∧ s'.lastKey = k ∧
      (keyReport stdConsts)[s'.lastKey]? = some row ∧ s'.reportBuffer = row :=
  coalescing stdConsts
    [⟨none, 0xFF, 0xFE, false, false⟩, ⟨none, 0xFF, 0xFD, false, false⟩,
      ⟨none, 0xFF, 0xFB, false, false⟩] ⟨none, 0xFF, 0xFB, false, true⟩
    (boot (MsgPtr.other 0))
    (by decide) rfl
    ⟨0, by decide, ⟨none, 0xFF, 0xFE, false, false⟩, boot (MsgPtr.other 0),
      boot (MsgPtr.other 0), 1, rfl, rfl, rfl, by decide, by decide⟩

/-! ## Backpressure -/

/-- The sampling step, with the key that `keyPressed` returns. -/
theorem sampleStep_eq (PINB k : Nat) (s : State) (hk : keyPressed PINB = some k) :
    sampleStep PINB s
      = some (if s.lastKey ≠ k then { s with lastKey := k, keyDidChange := 1 } else s) := by
  simp only [sampleStep, hk]
  split_ifs <;> rfl

/-- C11: in every iteration a report is submitted exactly when `keyDidChange`
is set after the sampling and idle steps and the slot is free; an iteration
submits at most one report (a run has one output slot per iteration); and a
flag that is set, at the start or after the idle step, is clear at the end of
the iteration only if the iteration submitted a report.  So from a state with
the flag set, the iterations with the slot busy submit nothing and leave the
flag set, and the next iteration with the slot free submits a report. -/
theorem backpressure (c : Consts) :
    (∀ (inp : Input) (s : State), ∃ sp ss s1 o,
      pollStep c inp s = some sp ∧ sampleStep inp.PINB sp = some ss ∧
      loopIteration c inp s = some (s1, o) ∧
      (o ≠ none ↔ ((idleStep inp.tov0 ss).keyDidChange ≠ 0 ∧ inp.ready = true)) ∧
      (s.keyDidChange ≠ 0 ∨ (idleStep inp.tov0 ss).keyDidChange ≠ 0 →
        s1.keyDidChange = 0 → o ≠ none)) ∧
    (∀ (inputs : List Input) (s : State), ∃ s' outs,
      runLoop c inputs s = some (s', outs) ∧ outs.length = inputs.length) ∧
    (∀ (busy : List Input) (free : Input) (s : State),
      s.keyDidChange ≠ 0 → (∀ inp, inp ∈ busy → inp.ready = false) → free.ready = true →
      ∃ s1 s' row,
        runLoop c busy s = some (s1, List.replicate busy.length none) ∧
        s1.keyDidChange ≠ 0 ∧
        runLoop c (busy ++ [free]) s
          = some (s', List.replicate busy.length none ++ [some row])) := by
  refine ⟨?_, ?_, ?_⟩
  · intro inp s
    obtain ⟨sp, k, row, si, hp, _, h2, _, hk, _, hsi, _, _, hloop⟩ :=
      loopIteration_cases c inp s
    have hs := sampleStep_eq inp.PINB k sp hk
    have hmono : s.keyDidChange ≠ 0 → si.keyDidChange ≠ 0 := by
      intro h
      rw [hsi]
      apply (idleStep_frame _ _).2.2.2
      by_cases hc : sp.lastKey ≠ k
      · rw [if_pos hc]
        exact Nat.one_ne_zero
      · rw [if_neg hc, h2]
        exact h
    by_cases hcond : si.keyDidChange ≠ 0 ∧ inp.ready = true
    · rw [if_pos hcond] at hloop
      refine ⟨sp, _, _, _, hp, hs, hloop, ?_, ?_⟩
      · rw [← hsi]
        exact ⟨fun _ => hcond, fun _ => by simp⟩
      · intro _ _
        simp
    · rw [if_neg hcond] at hloop
      refine ⟨sp, _, _, _, hp, hs, hloop, ?_, ?_⟩
      · rw [← hsi]
        exact ⟨fun h => absurd rfl h, fun h => absurd h hcond⟩
      · rw [← hsi]
        intro h h0
        rcases h with h | h
        · exact absurd h0 (hmono h)
        · exact absurd h0 h
  · intro inputs
    induction inputs with
    | nil => exact fun s => ⟨s, [], rfl, rfl⟩
    | cons inp rest ih =>
      intro s
      obtain ⟨s1, o, _, _, h, _⟩ := loopIteration_summary c inp s
      obtain ⟨s2, outs, h2, hlen⟩ := ih s1
      exact ⟨s2, o :: outs, by simp only [runLoop, h, h2], by simp [hlen]⟩
  · intro busy free s hset hbusy hfree
    obtain ⟨s1, hrun, hflag⟩ := busy_run c busy s hbusy
    have hset1 : s1.keyDidChange ≠ 0 := hflag (Or.inl hset)
    obtain ⟨s2, o, sp, k, hloop, _, _, _, _, _, hkeep, _⟩ :=
      loopIteration_summary c free s1
    obtain ⟨row, _, ho, _, _⟩ := (hkeep (Or.inl hset1)).2 hfree
    refine ⟨s1, s2, row, hrun, hset1, ?_⟩
    refine runLoop_append c busy [free] s s1 s2 _ _ hrun ?_
    simp only [runLoop, hloop, ho]

/-- C11 on an example: the flag is set (key 2 latched, idle rate 0), the slot is
busy for two iterations and free in the third, which submits a report. -/
theorem backpressure_witness :
    ∃ s1 s' row,
      runLoop stdConsts [⟨none, 0xFF, 0xFD, false, false⟩, ⟨none, 0xFF, 0xFD, true, false⟩]
          ⟨(0, 0), 0, MsgPtr.other 0, 2, 1, 0⟩
        = some (s1, List.replicate
            [(⟨none, 0xFF, 0xFD, false, false⟩ : Input),
              ⟨none, 0xFF, 0xFD, true, false⟩].length none) ∧
      s1.keyDidChange ≠ 0 ∧
      runLoop stdConsts
          ([⟨none, 0xFF, 0xFD, false, false⟩, ⟨none, 0xFF, 0xFD, true, false⟩]
            ++ [⟨none, 0xFF, 0xFD, false, true⟩])
          ⟨(0, 0), 0, MsgPtr.other 0, 2, 1, 0⟩
        = some (s', List.replicate
            [(⟨none, 0xFF, 0xFD, false, false⟩ : Input),
              ⟨none, 0xFF, 0xFD, true, false⟩].length none ++ [some row]) :=
  (backpressure stdConsts).2.2
    [⟨none, 0xFF, 0xFD, false, false⟩, ⟨none, 0xFF, 0xFD, true, false⟩]
    ⟨none, 0xFF, 0xFD, false, true⟩ ⟨(0, 0), 0, MsgPtr.other 0, 2, 1, 0⟩
    (by decide) (by decide) rfl

/-! ## Idempotence -/

/-- A run from a state whose `lastKey` is in `0..8` returns and ends in such a
state. -/
theorem run_lastKey (c : Consts) (inputs : List Input) :
    ∀ s : State, s.lastKey ≤ 8 →
      ∃ s' outs, runLoop c inputs s = some (s', outs) ∧ s'.lastKey ≤ 8 := by
  induction inputs with
  | nil => exact fun s h => ⟨s, [], rfl, h⟩
  | cons inp rest ih =>
    intro s _
    obtain ⟨s1, o, _, k, hloop, _, hk, hl, _⟩ := loopIteration_summary c inp s
    obtain ⟨k', hk', hk8⟩ := keyPressed_total inp.PINB
    rw [hk, Option.some.injEq] at hk'
    obtain ⟨s2, outs, hrun, h2⟩ := ih s1 (by rw [hl, hk']; exact hk8)
    exact ⟨s2, o :: outs, by simp only [runLoop, hloop, hrun], h2⟩

/-- The table has no row exactly for the indices above 8. -/
theorem buildReport_none_iff (c : Consts) (k : Nat) (s : State) :
    buildReport c k s = none ↔ 8 < k := by
  constructor
  · intro h
    by_contra hk
    obtain ⟨row, hrow⟩ := keyReport_row c k (by omega)
    rw [buildReport_row c k row s hrow] at h
    exact absurd h (by simp)
  · intro hk
    have hnone : (keyReport c)[k]? = none :=
      List.getElem?_eq_none (by simp only [keyReport, List.length_cons, List.length_nil]; omega)
    simp only [buildReport, hnone]

/-- C13: `keyPressed` returns a value in `0..8` for every value of `PINB`; every
run of the loop from boot returns and ends with `lastKey` in `0..8`;
`buildReport` finds a row for every index in `0..8` and fails exactly for the
indices above 8; the argument of `buildReport(lastKey)` at line 158 is in
`0..8` in every iteration, whatever the state at its start; so
`usbFunctionSetup` and the loop iteration never reach the out-of-range
case. -/
theorem report_index_in_range (c : Consts) :
    (∀ p : Nat, ∃ k, keyPressed p = some k ∧ k ≤ 8) ∧
    (∀ (inputs : List Input) (p0 : MsgPtr), ∃ s' outs,
      runLoop c inputs (boot p0) = some (s', outs) ∧ s'.lastKey ≤ 8) ∧
    (∀ (k : Nat) (s : State), k ≤ 8 → ∃ s', buildReport c k s = some s') ∧
    (∀ (k : Nat) (s : State), buildReport c k s = none ↔ 8 < k) ∧
    (∀ (inp : Input) (s : State), ∃ sp ss,
      pollStep c inp s = some sp ∧ sampleStep inp.PINB sp = some ss ∧
      (idleStep inp.tov0 ss).lastKey ≤ 8) ∧
    (∀ (p : Nat) (data : Fin 8 → Nat) (s : State), ∃ r, usbFunctionSetup c p data s = some r) ∧
    (∀ (inp : Input) (s : State), ∃ r, loopIteration c inp s = some r) := by
  refine ⟨keyPressed_total, fun inputs p0 => run_lastKey c inputs (boot p0) (Nat.zero_le _),
    ?_, buildReport_none_iff c, ?_, ?_, ?_⟩
  · intro k s hk
    obtain ⟨row, hrow⟩ := keyReport_row c k hk
    exact ⟨_, buildReport_row c k row s hrow⟩
  · intro inp s
    obtain ⟨sp, k, _, si, hp, _, _, _, hk, _, hsi, hlast, _⟩ := loopIteration_cases c inp s
    obtain ⟨k', hk', hk8⟩ := keyPressed_total inp.PINB
    rw [hk, Option.some.injEq] at hk'
    refine ⟨sp, _, hp, sampleStep_eq inp.PINB k sp hk, ?_⟩
    rw [← hsi, hlast, hk']
    exact hk8
  · intro p data s
    obtain ⟨len, s', h, _⟩ := usbFunctionSetup_frame c p data s
    exact ⟨_, h⟩
  · intro inp s
    obtain ⟨s1, o, _, _, h, _⟩ := loopIteration_summary c inp s
    exact ⟨_, h⟩

/-- C13 at the last row of the table: index 8 is in range. -/
theorem report_index_in_range_witness :
    ∃ s', buildReport stdConsts 8 (boot (MsgPtr.other 0)) = some s' :=
  (report_index_in_range stdConsts).2.2.1 8 (boot (MsgPtr.other 0)) (by decide)

/-- No bit of `0xFF` below position 8 is 0. -/
theorem testBit_ff_aux : ∀ i, i < 8 → Nat.testBit 0xFF i = true := by
  decide

/-- The row of line `i`, when the key codes are within the declared range. -/
theorem keyReport_line (c : Consts)
    (hrange : c.KEY_A ≤ 101 ∧ c.KEY_B ≤ 101 ∧ c.KEY_C ≤ 101 ∧ c.KEY_D ≤ 101 ∧
      c.KEY_E ≤ 101 ∧ c.KEY_F ≤ 101 ∧ c.KEY_G ≤ 101 ∧ c.KEY_H ≤ 101)
    (i : Nat) (hi : i < 8) :
    ∃ code, [c.KEY_A, c.KEY_B, c.KEY_C, c.KEY_D, c.KEY_E, c.KEY_F, c.KEY_G, c.KEY_H][i]?
        = some code ∧
      (keyReport c)[i + 1]? = some (0, code) ∧ code ≤ 101 := by
  obtain ⟨ha, hb, hc, hd, he, hf, hg, hh⟩ := hrange
  interval_cases i
  · exact ⟨c.KEY_A, rfl, by simp [keyReport]; omega, ha⟩
  · exact ⟨c.KEY_B, rfl, by simp [keyReport]; omega, hb⟩
  · exact ⟨c.KEY_C, rfl, by simp [keyReport]; omega, hc⟩
  · exact ⟨c.KEY_D, rfl, by simp [keyReport]; omega, hd⟩
  · exact ⟨c.KEY_E, rfl, by simp [keyReport]; omega, he⟩
  · exact ⟨c.KEY_F, rfl, by simp [keyReport]; omega, hf⟩
  · exact ⟨c.KEY_G, rfl, by simp [keyReport]; omega, hg⟩
  · exact ⟨c.KEY_H, rfl, by simp [keyReport]; omega, hh⟩

/-- C14: let the key codes `KEY_A` .. `KEY_H` of `keyboard.h` lie in the usage
range `0..101` that the report descriptor declares for the keycode field.
Then for every byte `p`, `buildReport(keyPressed(p))` leaves the buffer with
modifier byte 0 and a keycode of at most 101: `(0, 0)` when `p = 0xFF`, and
otherwise the key code of the lowest line that is low, line 0 giving `KEY_A`,
line 1 `KEY_B`, and so on up to line 7 giving `KEY_H`. -/
theorem report_contents (c : Consts)
    (hrange : c.KEY_A ≤ 101 ∧ c.KEY_B ≤ 101 ∧ c.KEY_C ≤ 101 ∧ c.KEY_D ≤ 101 ∧
      c.KEY_E ≤ 101 ∧ c.KEY_F ≤ 101 ∧ c.KEY_G ≤ 101 ∧ c.KEY_H ≤ 101)
    (p : Nat) (hp : p < 256) (s : State) :
    usbHidReportDescriptor[29]? = some 0 ∧ usbHidReportDescriptor[31]? = some 101 ∧
    ∃ k s', keyPressed p = some k ∧ buildReport c k s = some s' ∧
      s'.reportBuffer.1 = 0 ∧ s'.reportBuffer.2 ≤ 101 ∧
      (p = 0xFF → s'.reportBuffer = (0, 0)) ∧
      (∀ i, i < 8 → p.testBit i = false → (∀ j, j < i → p.testBit j = true) →
        [c.KEY_A, c.KEY_B, c.KEY_C, c.KEY_D, c.KEY_E, c.KEY_F, c.KEY_G, c.KEY_H][i]?
          = some s'.reportBuffer.2) := by
  refine ⟨rfl, rfl, ?_⟩
  by_cases hff : p = 0xFF
  · subst hff
    refine ⟨0, { s with reportBuffer := (0, 0) }, by decide,
      buildReport_row c 0 (0, 0) s rfl, rfl, Nat.zero_le _, fun _ => rfl, ?_⟩
    intro i hi h0 _
    rw [testBit_ff_aux i hi] at h0
    exact absurd h0 (by decide)
  · obtain ⟨i, hi, h0, hlow⟩ := lowest_zero_bit_aux p hp hff
    have hk := keyPressed_lowest_aux p hp i hi h0 hlow
    obtain ⟨code, hcode, hrow, hle⟩ := keyReport_line c hrange i hi
    refine ⟨i + 1, { s with reportBuffer := (0, code) }, hk,
      buildReport_row c (i + 1) (0, code) s hrow, rfl, hle, fun h => absurd h hff, ?_⟩
    intro i' hi' h0' hlow'
    have hk' := keyPressed_lowest_aux p hp i' hi' h0' hlow'
    rw [hk, Option.some.injEq] at hk'
    have e : i' = i := by omega
    rw [e]
    exact hcode

/-- C14 on the two scenarios of the specification, with the HID usage IDs as
key codes: only line 0 low gives `(0, KEY_A)`, no line low gives `(0, 0)`. -/
theorem report_contents_witness :
    (∃ k s', keyPressed 0b11111110 = some k ∧
      buildReport stdConsts k (boot (MsgPtr.other 0)) = some s' ∧
      s'.reportBuffer = (0, stdConsts.KEY_A)) ∧
    (∃ k s', keyPressed 0b11111111 = some k ∧
      buildReport stdConsts k (boot (MsgPtr.other 0)) = some s' ∧
      s'.reportBuffer = (0, 0)) := by
  constructor
  · obtain ⟨_, _, k, s', hk, hb, h1, _, _, hline⟩ :=
      report_contents stdConsts (by decide) 0b11111110 (by decide) (boot (MsgPtr.other 0))
    have h2 := hline 0 (by decide) (by decide) (by decide)
    simp only [List.getElem?_cons_zero, Option.some.injEq] at h2
    exact ⟨k, s', hk, hb, Prod.ext h1 h2.symm⟩
  · obtain ⟨_, _, k, s', hk, hb, _, _, hff, _⟩ :=
      report_contents stdConsts (by decide) 0b11111111 (by decide) (boot (MsgPtr.other 0))
    exact ⟨k, s', hk, hb, hff rfl⟩

/-- C15: for every key in `0..8` there is one pair of bytes (the row of the
key) that `buildReport(key)` leaves in the buffer, whatever the buffer held
before: both bytes are overwritten and nothing else changes, two calls from
different states leave the same buffer, and a second call in a row changes
nothing. -/
theorem buildReport_deterministic (c : Consts) (key : Nat) (hk : key ≤ 8) :
    ∃ row, (keyReport c)[key]? = some row ∧
      (∀ s : State, buildReport c key s = some { s with reportBuffer := row }) ∧
      (∀ s1 s2 t1 t2 : State, buildReport c key s1 = some t1 →
        buildReport c key s2 = some t2 → t1.reportBuffer = t2.reportBuffer) ∧
      (∀ s t : State, buildReport c key s = some t → buildReport c key t = some t) := by
  obtain ⟨row, hrow⟩ := keyReport_row c key hk
  refine ⟨row, hrow, fun s => buildReport_row c key row s hrow, ?_, ?_⟩
  · intro s1 s2 t1 t2 h1 h2
    rw [buildReport_row c key row s1 hrow, Option.some.injEq] at h1
    rw [buildReport_row c key row s2 hrow, Option.some.injEq] at h2
    rw [← h1, ← h2]
  · intro s t h
    rw [buildReport_row c key row s hrow, Option.some.injEq] at h
    rw [buildReport_row c key row t hrow, ← h]

/-- C15 for key 3. -/
theorem buildReport_deterministic_witness :
    ∃ row, (keyReport stdConsts)[3]? = some row ∧
      (∀ s : State, buildReport stdConsts 3 s = some { s with reportBuffer := row }) ∧
      (∀ s1 s2 t1 t2 : State, buildReport stdConsts 3 s1 = some t1 →
        buildReport stdConsts 3 s2 = some t2 → t1.reportBuffer = t2.reportBuffer) ∧
      (∀ s t : State, buildReport stdConsts 3 s = some t →
        buildReport stdConsts 3 t = some t) :=
  buildReport_deterministic stdConsts 3 (by decide)

/-! ## Who writes `idleRate` and `lastKey` -/

/-- The handler writes `idleRate` only in the SET_IDLE branch. -/
theorem usbFunctionSetup_idleRate (c : Consts) (p : Nat) (data : Fin 8 → Nat) (s : State)
    (h : ¬ (data 0 &&& c.USBRQ_TYPE_MASK = c.USBRQ_TYPE_CLASS ∧
      data 1 ≠ c.USBRQ_HID_GET_REPORT ∧ data 1 ≠ c.USBRQ_HID_GET_IDLE ∧
      data 1 = c.USBRQ_HID_SET_IDLE)) :
    ∃ len s', usbFunctionSetup c p data s = some (len, s') ∧ s'.idleRate = s.idleRate := by
  obtain ⟨k, hk, hk8⟩ := keyPressed_total p
  obtain ⟨row, hrow⟩ := keyReport_row c k hk8
  by_cases hcls : data 0 &&& c.USBRQ_TYPE_MASK = c.USBRQ_TYPE_CLASS
  · by_cases hgr : data 1 = c.USBRQ_HID_GET_REPORT
    · exact ⟨_, _, usbFunctionSetup_getReport c p data s k row hcls hgr hk hrow, rfl⟩
    · by_cases hgi : data 1 = c.USBRQ_HID_GET_IDLE
      · exact ⟨_, _, usbFunctionSetup_getIdle c p data s hcls hgr hgi, rfl⟩
      · have hsi : data 1 ≠ c.USBRQ_HID_SET_IDLE := fun e => h ⟨hcls, hgr, hgi, e⟩
        exact ⟨_, _, usbFunctionSetup_other c p data s (Or.inr ⟨hgr, hgi, hsi⟩), rfl⟩
  · exact ⟨_, _, usbFunctionSetup_other c p data s (Or.inl hcls), rfl⟩

/-- C16: `idleRate` is 0 at boot.  `usbFunctionSetup` leaves it unchanged on
every packet that does not reach the SET_IDLE branch: a class GET_REPORT, a
class GET_IDLE, any other class request and any non-class request.  The
sampling step, the idle step (the reload of `idleCounter` included) and the
submission step leave it unchanged, and so does the part of a loop iteration
that follows `usbPoll()`. -/
theorem idleRate_written_only_by_setIdle (c : Consts) :
    (∀ p0 : MsgPtr, (boot p0).idleRate = 0) ∧
    (∀ (p : Nat) (data : Fin 8 → Nat) (s : State),
      ¬ (data 0 &&& c.USBRQ_TYPE_MASK = c.USBRQ_TYPE_CLASS ∧
        data 1 ≠ c.USBRQ_HID_GET_REPORT ∧ data 1 ≠ c.USBRQ_HID_GET_IDLE ∧
        data 1 = c.USBRQ_HID_SET_IDLE) →
      ∃ len s', usbFunctionSetup c p data s = some (len, s') ∧ s'.idleRate = s.idleRate) ∧
    (∀ (PINB : Nat) (s : State), ∃ s', sampleStep PINB s = some s' ∧
      s'.idleRate = s.idleRate) ∧
    (∀ (tov0 : Bool) (s : State), (idleStep tov0 s).idleRate = s.idleRate) ∧
    (∀ (ready : Bool) (s : State) (r : State × Option (Nat × Nat)),
      submitStep c ready s = some r → r.1.idleRate = s.idleRate) ∧
    (∀ (inp : Input) (s : State), ∃ sp s1 o, pollStep c inp s = some sp ∧
      loopIteration c inp s = some (s1, o) ∧ s1.idleRate = sp.idleRate) := by
  refine ⟨fun _ => rfl, fun p data s => usbFunctionSetup_idleRate c p data s, ?_,
    fun tov0 s => (idleStep_frame tov0 s).2.1, ?_, ?_⟩
  · intro PINB s
    obtain ⟨k, hk, _⟩ := keyPressed_total PINB
    refine ⟨_, sampleStep_eq PINB k s hk, ?_⟩
    split_ifs <;> rfl
  · intro ready s r h
    unfold submitStep at h
    split_ifs at h with hc
    · cases hb : buildReport c s.lastKey { s with keyDidChange := 0 } with
      | none =>
        rw [hb] at h
        exact absurd h (by simp)
      | some t =>
        rw [hb] at h
        simp only [Option.some.injEq] at h
        rw [← h]
        unfold buildReport at hb
        cases hrow : (keyReport c)[s.lastKey]? with
        | none =>
          rw [hrow] at hb
          exact absurd hb (by simp)
        | some row =>
          rw [hrow] at hb
          simp only [Option.some.injEq] at hb
          rw [← hb]
    · simp only [Option.some.injEq] at h
      rw [← h]
  · intro inp s
    obtain ⟨sp, k, row, si, hp, _, _, _, _, _, _, _, hrate, hloop⟩ :=
      loopIteration_cases c inp s
    by_cases hcond : si.keyDidChange ≠ 0 ∧ inp.ready = true
    · rw [if_pos hcond] at hloop
      exact ⟨sp, _, _, hp, hloop, hrate⟩
    · rw [if_neg hcond] at hloop
      exact ⟨sp, _, _, hp, hloop, hrate⟩

/-- C16 on examples: a class GET_REPORT and a standard request with the
request code of SET_IDLE both leave an idle rate of 20 in place. -/
theorem idleRate_written_only_by_setIdle_witness :
    (∃ len s', usbFunctionSetup stdConsts 0xFE (packet [0xA1, 0x01, 0, 1, 0, 0, 2, 0])
        ⟨(0, 0), 20, MsgPtr.reportBuffer, 0, 0, 20⟩ = some (len, s') ∧
      s'.idleRate = (⟨(0, 0), 20, MsgPtr.reportBuffer, 0, 0, 20⟩ : State).idleRate) ∧
    (∃ len s', usbFunctionSetup stdConsts 0xFE (packet [0x00, 0x0a, 0, 7, 0, 0, 0, 0])
        ⟨(0, 0), 20, MsgPtr.reportBuffer, 0, 0, 20⟩ = some (len, s') ∧
      s'.idleRate = (⟨(0, 0), 20, MsgPtr.reportBuffer, 0, 0, 20⟩ : State).idleRate) :=
  ⟨(idleRate_written_only_by_setIdle stdConsts).2.1 0xFE
      (packet [0xA1, 0x01, 0, 1, 0, 0, 2, 0]) ⟨(0, 0), 20, MsgPtr.reportBuffer, 0, 0, 20⟩
      (by decide),
   (idleRate_written_only_by_setIdle stdConsts).2.1 0xFE
      (packet [0x00, 0x0a, 0, 7, 0, 0, 0, 0]) ⟨(0, 0), 20, MsgPtr.reportBuffer, 0, 0, 20⟩
      (by decide)⟩

/-- C17, counterexample: from boot, line 0 goes low while the slot is busy; at
the end of the iteration no report has been submitted, yet `lastKey` is 1, not
0.  And after a report for key 1 has been submitted, line 1 going low while
the slot is busy leaves `lastKey = 2` while the last report carries key 1. -/
theorem lastKey_vs_last_report_counterexample :
    runLoop stdConsts [⟨none, 0xFF, 0xFE, false, false⟩] (boot (MsgPtr.other 0))
      = some (⟨(0, 0), 0, MsgPtr.other 0, 1, 1, 0⟩, [none]) ∧
    runLoop stdConsts [⟨none, 0xFF, 0xFE, false, true⟩, ⟨none, 0xFF, 0xFD, false, false⟩]
        (boot (MsgPtr.other 0))
      = some (⟨(0, 4), 0, MsgPtr.other 0, 2, 1, 0⟩, [some (0, 4), none]) ∧
    (keyReport stdConsts)[1]? = some (0, 4) := by
  decide

/-- C17, amended: at the end of every iteration of every run, from boot or from
any other state, `lastKey` is the key sampled in that iteration, so it never
differs from the most recent sample.  It can differ from the key of the most
recently submitted report: from boot, one iteration with line 0 low and the
slot busy ends with `lastKey = 1` and nothing submitted. -/
theorem lastKey_is_latest_sample (c : Consts) :
    (∀ (inputs : List Input) (inp : Input) (s : State), ∃ s' outs k,
      runLoop c (inputs ++ [inp]) s = some (s', outs) ∧
      keyPressed inp.PINB = some k ∧ s'.lastKey = k) ∧
    (∀ p0 : MsgPtr, runLoop c [⟨none, 0xFF, 0xFE, false, false⟩] (boot p0)
      = some (⟨(0, 0), 0, p0, 1, 1, 0⟩, [none])) := by
  constructor
  · intro inputs inp s
    obtain ⟨s1, outs, hrun⟩ := runLoop_total c inputs s
    obtain ⟨s2, o, _, k, hloop, _, hk, hl, _⟩ := loopIteration_summary c inp s1
    refine ⟨s2, outs ++ [o], k, ?_, hk, hl⟩
    refine runLoop_append c inputs [inp] s s1 s2 _ _ hrun ?_
    simp only [runLoop, hloop]
  · intro p0
    rfl

/-- C18: the word copy of `buildReport` and the explicit two-byte copy
`buildReportBytes` are the same function.  For a key in `0..8` both leave
`reportBuffer[0] = keyReport[key][0]` and `reportBuffer[1] = keyReport[key][1]`
and change nothing else.  In general, two bytes read as a little-endian word,
converted to the signed 16-bit `int` and stored as an `int` come back in the
same order and with the same values, also when the `int` is negative. -/
theorem word_copy_is_byte_copy (c : Consts) :
    (∀ (key : Nat) (s : State), buildReport c key s = buildReportBytes c key s) ∧
    (∀ (key : Nat) (s : State), key ≤ 8 → ∃ row, (keyReport c)[key]? = some row ∧
      buildReport c key s = some { s with reportBuffer := (row.1, row.2) }) ∧
    (∀ lo hi : Nat, lo < 256 → hi < 256 →
      storeInt16 (toInt16 (pgm_read_word (lo, hi))) = (lo, hi)) := by
  refine ⟨?_, ?_, storeInt16_toInt16⟩
  · intro key s
    cases hrow : (keyReport c)[key]? with
    | none => simp only [buildReport, buildReportBytes, hrow]
    | some row =>
      rw [buildReport_row c key row s hrow]
      simp only [buildReportBytes, hrow]
  · intro key s hk
    obtain ⟨row, hrow⟩ := keyReport_row c key hk
    exact ⟨row, hrow, buildReport_row c key row s hrow⟩

/-- C18 on examples: key 1 with the HID usage IDs, and a word whose high byte
`0xC8` makes the `int` negative. -/
theorem word_copy_is_byte_copy_witness :
    (∃ row, (keyReport stdConsts)[1]? = some row ∧
      buildReport stdConsts 1 (boot (MsgPtr.other 0))
        = some { boot (MsgPtr.other 0) with reportBuffer := (row.1, row.2) }) ∧
    toInt16 (pgm_read_word (0x12, 0xC8)) = -14318 ∧
    storeInt16 (toInt16 (pgm_read_word (0x12, 0xC8))) = (0x12, 0xC8) :=
  ⟨(word_copy_is_byte_copy stdConsts).2.1 1 (boot (MsgPtr.other 0)) (by decide),
   by decide,
   (word_copy_is_byte_copy stdConsts).2.2 0x12 0xC8 (by decide) (by decide)⟩

/-- C19: in every iteration, whatever `lastKey` was before, `lastKey` equals
the key sampled in that iteration after the sampling step and still at the
submission step; so `buildReport(lastKey)` at line 158 does what
`buildReport(key)` would do, and a report submitted by the iteration is the
table row of the key sampled in that same iteration. -/
theorem submitted_report_is_current_sample (c : Consts) (inp : Input) (s : State) :
    ∃ sp k ss,
      pollStep c inp s = some sp ∧ keyPressed inp.PINB = some k ∧
      sampleStep inp.PINB sp = some ss ∧ ss.lastKey = k ∧
      (idleStep inp.tov0 ss).lastKey = k ∧
      loopIteration c inp s = submitStep c inp.ready (idleStep inp.tov0 ss) ∧
      (∀ t : State, buildReport c (idleStep inp.tov0 ss).lastKey t = buildReport c k t) ∧
      (∀ (s1 : State) (r : Nat × Nat), loopIteration c inp s = some (s1, some r) →
        (keyReport c)[k]? = some r ∧ s1.lastKey = k) := by
  obtain ⟨sp, k, row, si, hp, _, _, _, hk, hrow, hsi, hlast, _, hloop⟩ :=
    loopIteration_cases c inp s
  have hs := sampleStep_eq inp.PINB k sp hk
  rw [hsi] at hlast
  have hss : (if sp.lastKey ≠ k then { sp with lastKey := k, keyDidChange := 1 }
      else sp).lastKey = k := by
    rw [← (idleStep_frame inp.tov0 _).1]
    exact hlast
  refine ⟨sp, k, _, hp, hk, hs, hss, hlast, ?_, ?_, ?_⟩
  · simp only [loopIteration, hp, hs]
  · intro t
    rw [hlast]
  · intro s1 r h
    rw [hloop] at h
    by_cases hcond : si.keyDidChange ≠ 0 ∧ inp.ready = true
    · rw [if_pos hcond, Option.some.injEq, Prod.mk.injEq, Option.some.injEq] at h
      rw [← h.2, ← h.1]
      exact ⟨hrow, by rw [hsi]; exact hlast⟩
    · rw [if_neg hcond, Option.some.injEq, Prod.mk.injEq] at h
      exact absurd h.2 (by simp)

/-- C19 on an example: key 5 is latched, line 2 is low and the slot is free;
the report submitted is the row of key 3, the key sampled in this iteration. -/
theorem submitted_report_is_current_sample_witness :
    (keyReport stdConsts)[3]? = some (0, 6) ∧
    (⟨(0, 6), 0, MsgPtr.other 0, 3, 0, 0⟩ : State).lastKey = 3 := by
  obtain ⟨sp, k, ss, _, hk, _, _, _, _, _, h⟩ :=
    submitted_report_is_current_sample stdConsts ⟨none, 0xFF, 0xFB, false, true⟩
      ⟨(0, 8), 0, MsgPtr.other 0, 5, 0, 0⟩
  have hk3 : k = 3 := by
    have : keyPressed 0xFB = some 3 := by decide
    rw [show (⟨none, 0xFF, 0xFB, false, true⟩ : Input).PINB = 0xFB from rfl, this] at hk
    exact (Option.some.inj hk).symm
  subst hk3
  exact h ⟨(0, 6), 0, MsgPtr.other 0, 3, 0, 0⟩ (0, 6) (by decide)

/-! ## The idle countdown never wraps -/

/-- Reloads of a run, one iteration unfolded. -/
theorem reloadsAt_succ (c : Consts) (inp : Input) (rest : List Input) (s s1 : State)
    (o : Option (Nat × Nat)) (h : loopIteration c inp s = some (s1, o)) (n R : Nat) :
    reloadsAt c (inp :: rest) s (n + 1) R ↔ reloadsAt c rest s1 n R := by
  simp only [reloadsAt, stateAt_succ c inp rest s s1 o h, List.getElem?_cons_succ]

/-- The idle step either leaves the counter at or below its old value, or takes
the reload branch. -/
theorem idleStep_counter (tov0 : Bool) (s : State) :
    (idleStep tov0 s).idleCounter ≤ s.idleCounter ∨
    (tov0 = true ∧ s.idleRate ≠ 0 ∧ ¬ s.idleCounter > 4 ∧
      (idleStep tov0 s).idleCounter = s.idleRate) := by
  unfold idleStep
  split_ifs with h1 h2 h3
  · left
    simp only
    omega
  · exact Or.inr ⟨h1, h2, h3, rfl⟩
  · exact Or.inl le_rfl
  · exact Or.inl le_rfl

/-- One iteration either leaves the counter at or below its old value, or
reloads it with the idle rate that `usbPoll()` left. -/
theorem loopIteration_counter (c : Consts) (inp : Input) (s : State) :
    ∃ sp s1 o, pollStep c inp s = some sp ∧ loopIteration c inp s = some (s1, o) ∧
      (s1.idleCounter ≤ s.idleCounter ∨
        (inp.tov0 = true ∧ sp.idleRate ≠ 0 ∧ ¬ sp.idleCounter > 4 ∧
          s1.idleCounter = sp.idleRate)) := by
  obtain ⟨sp, k, row, si, hp, _, _, h3, _, _, hsi, _, _, hloop⟩ :=
    loopIteration_cases c inp s
  have hcnt : si.idleCounter ≤ s.idleCounter ∨
      (inp.tov0 = true ∧ sp.idleRate ≠ 0 ∧ ¬ sp.idleCounter > 4 ∧
        si.idleCounter = sp.idleRate) := by
    rw [hsi]
    by_cases hc : sp.lastKey ≠ k
    · rw [if_pos hc]
      have := idleStep_counter inp.tov0 { sp with lastKey := k, keyDidChange := 1 }
      simp only at this
      rw [← h3]
      exact this
    · rw [if_neg hc, ← h3]
      exact idleStep_counter inp.tov0 sp
  by_cases hcond : si.keyDidChange ≠ 0 ∧ inp.ready = true
  · rw [if_pos hcond] at hloop
    exact ⟨sp, _, _, hp, hloop, hcnt⟩
  · rw [if_neg hcond] at hloop
    exact ⟨sp, _, _, hp, hloop, hcnt⟩

/-- At the end of a run the counter is at most its value at the start, or at
most an idle rate with which some iteration of the run reloaded it. -/
theorem counter_bound (c : Consts) (inputs : List Input) :
    ∀ s : State, ∃ s' outs, runLoop c inputs s = some (s', outs) ∧
      (s'.idleCounter ≤ s.idleCounter ∨
        ∃ m R, m < inputs.length ∧ reloadsAt c inputs s m R ∧ s'.idleCounter ≤ R) := by
  induction inputs with
  | nil => exact fun s => ⟨s, [], rfl, Or.inl le_rfl⟩
  | cons inp rest ih =>
    intro s
    obtain ⟨sp, s1, o, hp, hloop, hcnt⟩ := loopIteration_counter c inp s
    obtain ⟨s2, outs, hrun, hb⟩ := ih s1
    refine ⟨s2, o :: outs, by simp only [runLoop, hloop, hrun], ?_⟩
    rcases hb with hb | ⟨m, R, hm, hre, hle⟩
    · rcases hcnt with hcnt | ⟨h1, h2, h3, h4⟩
      · exact Or.inl (le_trans hb hcnt)
      · refine Or.inr ⟨0, sp.idleRate, by simp, ?_, by rw [← h4]; exact hb⟩
        exact ⟨inp, s, sp, by simp, stateAt_zero _ _ _, hp, h1, h2, h3, rfl⟩
    · exact Or.inr ⟨m + 1, R, by simp only [List.length_cons]; omega,
        (reloadsAt_succ c inp rest s s1 o hloop m R).mpr hre, hle⟩

/-- C20: whenever the idle step executes `idleCounter -= 5` (timer overflow,
idle rate not 0, counter above 4) on a counter byte, the counter is at least 5
and the 8-bit result is the mathematical difference, with no wrap-around.  And
at the end of every run from boot the counter is 0, or at most an idle rate `R`
that was in effect when some iteration of the run reloaded the counter. -/
theorem idle_countdown_never_wraps (c : Consts) :
    (∀ s : State, s.idleCounter < 256 → s.idleRate ≠ 0 → s.idleCounter > 4 →
      5 ≤ s.idleCounter ∧
      (idleStep true s).idleCounter = (s.idleCounter + 256 - 5) % 256 ∧
      ((idleStep true s).idleCounter : Int) = (s.idleCounter : Int) - 5) ∧
    (∀ (inputs : List Input) (p0 : MsgPtr), ∃ s' outs,
      runLoop c inputs (boot p0) = some (s', outs) ∧
      (s'.idleCounter = 0 ∨
        ∃ m R, m < inputs.length ∧ reloadsAt c inputs (boot p0) m R ∧
          s'.idleCounter ≤ R)) := by
  constructor
  · intro s hc hR h
    have e := idleStep_decrement s hR hc h
    refine ⟨h, ?_, ?_⟩
    · rw [e]
      simp only
      omega
    · rw [e]
      simp only
      omega
  · intro inputs p0
    obtain ⟨s', outs, hrun, hb⟩ := counter_bound c inputs (boot p0)
    refine ⟨s', outs, hrun, ?_⟩
    rcases hb with hb | hb
    · exact Or.inl (Nat.le_zero.mp hb)
    · exact Or.inr hb

/-- C20 on examples: the smallest counter that is decremented, 5, goes to 0,
and the largest, 255, to 250. -/
theorem idle_countdown_never_wraps_witness :
    ((idleStep true ⟨(0, 0), 255, MsgPtr.reportBuffer, 0, 0, 5⟩).idleCounter : Int) = 5 - 5 ∧
    ((idleStep true ⟨(0, 0), 255, MsgPtr.reportBuffer, 0, 0, 255⟩).idleCounter : Int)
      = 255 - 5 :=
  ⟨((idle_countdown_never_wraps stdConsts).1 ⟨(0, 0), 255, MsgPtr.reportBuffer, 0, 0, 5⟩
      (by decide) (by decide) (by decide)).2.2,
   ((idle_countdown_never_wraps stdConsts).1 ⟨(0, 0), 255, MsgPtr.reportBuffer, 0, 0, 255⟩
      (by decide) (by decide) (by decide)).2.2⟩

end HidKeys
